import Mathlib

/-!
Chunk pruning, predicate conditions, LZ4 iteration and statistics of Hyrise

A shallow embedding of `src/lib/optimizer/strategy/chunk_pruning_rule.cpp`
(`ChunkPruningRule::apply_to`, `ChunkPruningRule::_compute_exclude_list`) together with the
parts of the data model it touches, of the functions on predicate conditions of
`src/lib/types.cpp`, of the iterators of `src/lib/storage/lz4/lz4_iterable.hpp` and of
`SegmentStatistics2<T>` of `src/lib/statistics/segment_statistics2.cpp`, of
`ArithmeticExpression::as_column_name` of `src/lib/expression/arithmetic_expression.cpp` and of
the cross-join cardinality of `src/cost_model_calibration_lib/cost_model_feature_extractor.cpp`,
followed by theorems about them.

Conventions of the embedding.

* A logical query plan is a heap of nodes: `LQP = List LQPNode`, a `shared_ptr` to a node is the
  index of the node in the heap (`NodeId`), a null pointer is `none`.  Sharing of a node between
  several parents is sharing of its index.
* `std::set<ChunkID>` is a strictly ascending list, `std::set::insert` is `set_insert`.
* Code that can throw or abort returns `Except Failure _`; the mutation of the plan survives a
  failure (`Outcome` carries the plan next to the result).
* Loops and the recursion over the plan take a fuel argument; `Failure.out_of_fuel` is the only
  outcome that is not an outcome of the C++ code.
* An iterator of a vector is the vector and a position in it; a read past the end of a vector is
  `IterationFailure.undefined_behaviour`.
* A class template over the data type `T` takes the `DataType` as a field; a virtual method whose
  result decides a branch is a field as well, and a virtual method of a class that is not among
  the sources is a parameter.
* Unsigned machine integers are natural numbers reduced modulo `2 ^ 32` or `2 ^ 64` where the
  code computes with them.
-/

namespace Hyrise

/-! ## Types of `types.hpp` and `all_type_variant.hpp` -/

abbrev ChunkID := Nat
abbrev ColumnID := Nat
abbrev ParameterID := Nat
abbrev NodeId := Nat

/-- The `enum class PredicateCondition`, in the order of the cases of `flip_predicate_condition`. -/
inductive PredicateCondition where
  | Equals | NotEquals | LessThan | LessThanEquals | GreaterThan | GreaterThanEquals
  | Between | In | Like | NotLike | IsNull | IsNotNull
  deriving DecidableEq

/-- The tagged value carrier `AllTypeVariant`: one constructor per data type and the null tag.
Floating point payloads are kept as their bit pattern; the rule never looks inside a value. -/
inductive AllTypeVariant where
  | int32 (v : Int)
  | int64 (v : Int)
  | float (bits : Nat)
  | double (bits : Nat)
  | string (s : String)
  | null
  deriving DecidableEq

/-- The `AllParameterVariant` of an operator predicate: a value, a column or a parameter. -/
inductive AllParameterVariant where
  | variant (v : AllTypeVariant)
  | column (c : ColumnID)
  | parameter (p : ParameterID)
  deriving DecidableEq

/-- The function `is_variant` of `all_parameter_variant.hpp`. -/
def is_variant : AllParameterVariant → Bool
  | .variant _ => true
  | _ => false

/-- Error kinds of a statistics operation (spec §7). -/
inductive StatisticsError where
  | TypeMismatch
  | Other
  deriving DecidableEq

/-- The ways in which the embedded code fails. -/
inductive Failure where
  /-- dereference of a null pointer -/
  | null_pointer
  /-- `StorageManager::get_table` on an unknown name -/
  | no_such_table
  /-- `operator[]` of a vector past its end -/
  | index_out_of_range
  /-- `boost::get<AllTypeVariant>` on a variant that holds something else -/
  | bad_get
  /-- an error reported by `does_not_contain` -/
  | statistics (e : StatisticsError)
  /-- the fuel of the embedding is used up -/
  | out_of_fuel
  deriving DecidableEq

/-- The `boost::get<AllTypeVariant>(v)` on a reference: throws `bad_get` unless `v` holds a
value. -/
def boost_get : AllParameterVariant → Except Failure AllTypeVariant
  | .variant v => .ok v
  | _ => .error .bad_get

/-! ## Statistics -/

/-- The interface `BaseSegmentStatistics2` as far as the rule uses it: the virtual method
`does_not_contain(condition, value, value2)`.  Its implementations are not among the sources, so
an object is its method; the method reports an error by failing (spec §7). -/
structure BaseSegmentStatistics2 where
  does_not_contain : PredicateCondition → AllTypeVariant → Option AllTypeVariant →
    Except StatisticsError Bool

/-- The `ChunkStatistics2`: `segment_statistics[column_id]`, entries may be null. -/
structure ChunkStatistics2 where
  segment_statistics : List (Option BaseSegmentStatistics2)

/-- The `TableStatistics2`: `chunk_statistics[chunk_id]`, entries may be null. -/
structure TableStatistics2 where
  chunk_statistics : List (Option ChunkStatistics2)

/-! ## Tables -/

abbrev Row := List AllTypeVariant

/-- A chunk, seen row by row. -/
abbrev Chunk := List Row

/-- A table: its chunks and the statistics attached to it. -/
structure Table where
  chunks : List Chunk
  table_statistics2 : TableStatistics2

/-- The method `Table::chunk_count`. -/
def Table.chunk_count (t : Table) : Nat := t.chunks.length

/-- The singleton `StorageManager`, as the map from table names to tables. -/
abbrev StorageManager := String → Option Table

/-- The method `StorageManager::get_table`: fails for an unknown name. -/
def StorageManager.get_table (sm : StorageManager) (name : String) : Except Failure Table :=
  match sm name with
  | some t => .ok t
  | none => .error .no_such_table

/-! ## Predicates and plan nodes -/

/-- The normalized predicate `OperatorScanPredicate`. -/
structure OperatorScanPredicate where
  column_id : ColumnID
  predicate_condition : PredicateCondition
  value : AllParameterVariant
  value2 : Option AllParameterVariant
  deriving DecidableEq

/-- Modelled from the spec: the expression classes and `OperatorScanPredicate::from_expression`
are not among the sources.  A predicate expression is what the rule and a scan observe of it:
the result of `from_expression` (spec §4.6, empty when the expression is rejected) and the truth
value of the predicate on a row. -/
structure AbstractExpression where
  from_expression : Option (List OperatorScanPredicate)
  holds : Row → Bool

/-- The node types the rule distinguishes, and some of the others. -/
inductive LQPNodeType where
  | Aggregate | Join | Limit | Predicate | Projection | Root | Sort | StoredTable | Union
  | Validate | Mock
  deriving DecidableEq

/-- A node of a logical query plan.  The fields of the subclasses `PredicateNode` (`predicate`)
and `StoredTableNode` (`table_name`, the excluded chunk ids) are fields of every node; `type`
says which of them are meaningful. -/
structure LQPNode where
  type : LQPNodeType
  left_input : Option NodeId
  right_input : Option NodeId
  /-- the nodes that have this node as an input, one entry per use -/
  outputs : List NodeId
  predicate : AbstractExpression
  table_name : String
  excluded_chunk_ids : List ChunkID

/-- The method `AbstractLQPNode::output_count`. -/
def LQPNode.output_count (n : LQPNode) : Nat := n.outputs.length

/-- A logical query plan: the heap of its nodes. -/
abbrev LQP := List LQPNode

/-- Dereference of a node pointer. -/
def LQP.deref (plan : LQP) (id : NodeId) : Except Failure LQPNode :=
  match plan[id]? with
  | some n => .ok n
  | none => .error .null_pointer

/-- The method `StoredTableNode::set_excluded_chunk_ids` on the node behind `id`. -/
def LQP.set_excluded_chunk_ids (plan : LQP) (id : NodeId) (chunks : List ChunkID) : LQP :=
  match plan[id]? with
  | some n => plan.set id { n with excluded_chunk_ids := chunks }
  | none => plan

/-! ## `std::set` and `std::set_intersection` -/

/-- The `std::set<ChunkID>::insert` on a set kept as an ascending list. -/
def set_insert (x : ChunkID) : List ChunkID → List ChunkID
  | [] => [x]
  | y :: ys =>
    if x < y then x :: y :: ys
    else if x = y then y :: ys
    else y :: set_insert x ys

/-- The range insert `s.insert(first, last)`. -/
def set_insert_range (s : List ChunkID) (xs : List ChunkID) : List ChunkID :=
  xs.foldl (fun acc x => set_insert x acc) s

/-- The loop of `std::set_intersection` on two ranges, written to a `back_inserter`; each turn
advances in one of the ranges, so their lengths bound the number of turns. -/
def set_intersection_loop : Nat → List ChunkID → List ChunkID → List ChunkID
  | 0, _, _ => []
  | _ + 1, [], _ => []
  | _ + 1, _ :: _, [] => []
  | turns + 1, a :: as, b :: bs =>
    if a < b then set_intersection_loop turns as (b :: bs)
    else if b < a then set_intersection_loop turns (a :: as) bs
    else a :: set_intersection_loop turns as bs

/-- The algorithm `std::set_intersection`. -/
def set_intersection (xs ys : List ChunkID) : List ChunkID :=
  set_intersection_loop (xs.length + ys.length) xs ys

/-! ## `ChunkPruningRule::_compute_exclude_list` -/

/-- The inner loop of `_compute_exclude_list` (lines 100-110) from chunk id `chunk_id` on, over
the rest of the statistics vector. -/
def exclude_chunks (column_id : ColumnID) (condition : PredicateCondition)
    (value : AllTypeVariant) (value2 : Option AllTypeVariant) :
    List (Option ChunkStatistics2) → ChunkID → List ChunkID → Except Failure (List ChunkID)
  | [], _, result => .ok result
  | none :: rest, chunk_id, result =>
    exclude_chunks column_id condition value value2 rest (chunk_id + 1) result
  | some chunk_statistics :: rest, chunk_id, result =>
    match chunk_statistics.segment_statistics[column_id]? with
    | none => .error .index_out_of_range
    | some none => exclude_chunks column_id condition value value2 rest (chunk_id + 1) result
    | some (some segment_statistics) =>
      match segment_statistics.does_not_contain condition value value2 with
      | .error e => .error (.statistics e)
      | .ok true =>
        exclude_chunks column_id condition value value2 rest (chunk_id + 1)
          (set_insert chunk_id result)
      | .ok false =>
        exclude_chunks column_id condition value value2 rest (chunk_id + 1) result

/-- The conversion of `operator_predicate.value2` (lines 97-98). -/
def get_value2 : Option AllParameterVariant → Except Failure (Option AllTypeVariant)
  | none => .ok none
  | some v =>
    match boost_get v with
    | .ok v2 => .ok (some v2)
    | .error e => .error e

/-- The loop over the operator predicates of `_compute_exclude_list` (lines 92-112). -/
def exclude_for_predicates (statistics : List (Option ChunkStatistics2)) :
    List OperatorScanPredicate → List ChunkID → Except Failure (List ChunkID)
  | [], result => .ok result
  | operator_predicate :: rest, result =>
    if !is_variant operator_predicate.value then .ok []
    else
      match boost_get operator_predicate.value with
      | .error e => .error e
      | .ok value =>
        match get_value2 operator_predicate.value2 with
        | .error e => .error e
        | .ok value2 =>
          match exclude_chunks operator_predicate.column_id
              operator_predicate.predicate_condition value value2 statistics 0 result with
          | .error e => .error e
          | .ok result => exclude_for_predicates statistics rest result

/-- The method `ChunkPruningRule::_compute_exclude_list`. -/
def _compute_exclude_list (statistics : List (Option ChunkStatistics2))
    (predicate_node : LQPNode) : Except Failure (List ChunkID) :=
  match predicate_node.predicate.from_expression with
  | none => .ok []
  | some operator_predicates => exclude_for_predicates statistics operator_predicates []

/-! ## `ChunkPruningRule::apply_to` -/

/-- What a run of the rule leaves behind: the plan with the mutations made so far, and the value
returned, or the failure. -/
structure Outcome where
  plan : LQP
  result : Except Failure Bool

/-- Modelled from the spec: `AbstractRule::_apply_to_inputs` (abstract_rule.cpp) is not among the
sources.  Spec §4.7 step 1 and 4: "recurse on inputs".  The rule is applied to the left input,
then to the right input, where present, and the flags are combined by disjunction; `recurse` is
the rule itself. -/
def _apply_to_inputs (recurse : LQP → NodeId → Outcome) (plan : LQP) (node : NodeId) : Outcome :=
  match plan.deref node with
  | .error e => ⟨plan, .error e⟩
  | .ok n =>
    let left : Outcome :=
      match n.left_input with
      | some l => recurse plan l
      | none => ⟨plan, .ok false⟩
    match left.result with
    | .error e => ⟨left.plan, .error e⟩
    | .ok left_changed =>
      let right : Outcome :=
        match n.right_input with
        | some r => recurse left.plan r
        | none => ⟨left.plan, .ok false⟩
      match right.result with
      | .error e => ⟨right.plan, .error e⟩
      | .ok right_changed => ⟨right.plan, .ok (left_changed || right_changed)⟩

/-- The loop "Gather consecutive PredicateNodes" (lines 34-42), entered with `current_node` and
the predicate nodes gathered so far.  The result `none` is the early `return
_apply_to_inputs(node)` of line 40; otherwise the gathered nodes and the node the loop stopped
at. -/
def gather_predicate_nodes (plan : LQP) :
    Nat → NodeId → List NodeId → Except Failure (Option (List NodeId × NodeId))
  | 0, _, _ => .error .out_of_fuel
  | fuel + 1, current_node, predicate_nodes =>
    match plan.deref current_node with
    | .error e => .error e
    | .ok current =>
      if current.type = .Predicate then
        match current.left_input with
        | none => .error .null_pointer
        | some next =>
          match plan.deref next with
          | .error e => .error e
          | .ok next_node =>
            if next_node.type = .Predicate ∧ next_node.output_count > 1 then .ok none
            else gather_predicate_nodes plan fuel next (predicate_nodes ++ [current_node])
      else .ok (some (predicate_nodes, current_node))

/-- The step "skip over validation nodes" (lines 44-47); the node it yields is dereferenced by
the next statement, so a null input fails here. -/
def skip_validate (plan : LQP) (current_node : NodeId) : Except Failure NodeId :=
  match plan.deref current_node with
  | .error e => .error e
  | .ok current =>
    if current.type = .Validate then
      match current.left_input with
      | none => .error .null_pointer
      | some next => .ok next
    else .ok current_node

/-- The loop of lines 60-62 over the chunk ids `chunk_ids`: `chunk_statistics[chunk_id]` of each,
pushed back in turn. -/
def collect_statistics (chunk_statistics : List (Option ChunkStatistics2)) :
    List ChunkID → Except Failure (List (Option ChunkStatistics2))
  | [] => .ok []
  | chunk_id :: rest =>
    match chunk_statistics[chunk_id]? with
    | none => .error .index_out_of_range
    | some entry =>
      match collect_statistics chunk_statistics rest with
      | .error e => .error e
      | .ok statistics => .ok (entry :: statistics)

/-- The statistics vector built in lines 59-62. -/
def table_statistics_vector (table : Table) : Except Failure (List (Option ChunkStatistics2)) :=
  collect_statistics table.table_statistics2.chunk_statistics (List.range table.chunk_count)

/-- The loop of lines 64-67: the exclusions of each predicate node are inserted into
`excluded_chunk_ids`. -/
def union_exclusions (plan : LQP) (statistics : List (Option ChunkStatistics2)) :
    List NodeId → List ChunkID → Except Failure (List ChunkID)
  | [], excluded_chunk_ids => .ok excluded_chunk_ids
  | predicate :: rest, excluded_chunk_ids =>
    match plan.deref predicate with
    | .error e => .error e
    | .ok predicate_node =>
      match _compute_exclude_list statistics predicate_node with
      | .error e => .error e
      | .ok new_exclusions =>
        union_exclusions plan statistics rest (set_insert_range excluded_chunk_ids new_exclusions)

/-- Lines 69-78: what is stored in the stored-table node, given the list it carries and the
set computed for the chain. -/
def merge_exclusions (already_excluded_chunk_ids excluded_chunk_ids : List ChunkID) :
    List ChunkID :=
  if !already_excluded_chunk_ids.isEmpty then
    set_intersection already_excluded_chunk_ids excluded_chunk_ids
  else excluded_chunk_ids

/-- Lines 52-81 of `apply_to`: "A chain of predicates followed by a stored table node was
found". -/
def prune_stored_table (sm : StorageManager) (plan : LQP) (predicate_nodes : List NodeId)
    (stored_table_id : NodeId) (stored_table : LQPNode) : Outcome :=
  match sm.get_table stored_table.table_name with
  | .error e => ⟨plan, .error e⟩
  | .ok table =>
    match table_statistics_vector table with
    | .error e => ⟨plan, .error e⟩
    | .ok statistics =>
      match union_exclusions plan statistics predicate_nodes [] with
      | .error e => ⟨plan, .error e⟩
      | .ok excluded_chunk_ids =>
        ⟨plan.set_excluded_chunk_ids stored_table_id
            (merge_exclusions stored_table.excluded_chunk_ids excluded_chunk_ids),
          .ok false⟩

/-- The method `ChunkPruningRule::apply_to` on the node behind `node`.  The cost estimator is
only handed on and is left out; the `DebugAssert`s are those of a release build. -/
def apply_to (sm : StorageManager) : Nat → LQP → NodeId → Outcome
  | 0, plan, _ => ⟨plan, .error .out_of_fuel⟩
  | fuel + 1, plan, node =>
    match plan.deref node with
    | .error e => ⟨plan, .error e⟩
    | .ok n =>
      if n.type ≠ .Predicate then _apply_to_inputs (apply_to sm fuel) plan node
      else
        match gather_predicate_nodes plan (fuel + 1) node [] with
        | .error e => ⟨plan, .error e⟩
        | .ok none => _apply_to_inputs (apply_to sm fuel) plan node
        | .ok (some (predicate_nodes, current_node)) =>
          match skip_validate plan current_node with
          | .error e => ⟨plan, .error e⟩
          | .ok current_node =>
            match plan.deref current_node with
            | .error e => ⟨plan, .error e⟩
            | .ok current =>
              if current.type ≠ .StoredTable then
                _apply_to_inputs (apply_to sm fuel) plan node
              else prune_stored_table sm plan predicate_nodes current_node current

/-! ## Scans and range statistics, for the statements about rows -/

/-- Modelled from the spec: the scan operator is not among the sources.  Spec §4.8: "A scan
enumerates `chunks()` but skips any `chunk_id ∈ excluded_chunks`"; the rows of the surviving
chunks that satisfy the predicate are its result, as positions `(chunk_id, chunk_offset)`, from
chunk id `chunk_id` on. -/
def scan_chunks (excluded_chunks : List ChunkID) (holds : Row → Bool) :
    List Chunk → ChunkID → List (ChunkID × Nat)
  | [], _ => []
  | chunk :: rest, chunk_id =>
    (if chunk_id ∈ excluded_chunks then []
     else ((List.range chunk.length).filter
        (fun offset => match chunk[offset]? with
          | some row => holds row
          | none => false)).map (fun offset => (chunk_id, offset)))
      ++ scan_chunks excluded_chunks holds rest (chunk_id + 1)

/-- Modelled from the spec: the result of scanning `table` with the conjunction of the
predicates `predicates`, skipping the chunks `excluded_chunks` (spec §4.8). -/
def scan (table : Table) (excluded_chunks : List ChunkID) (predicates : List AbstractExpression) :
    List (ChunkID × Nat) :=
  scan_chunks excluded_chunks (fun row => predicates.all (fun p => p.holds row)) table.chunks 0

/-- Modelled from the spec: the implementations of `does_not_contain` are not among the
sources.  The decision table of spec §4.4 for the statistics of an `Int32` segment whose values
lie in `[min, max]`; a literal of another data type is a `TypeMismatch` (spec §7). -/
def range_statistics (min max : Int) : BaseSegmentStatistics2 where
  does_not_contain := fun condition value value2 =>
    match value with
    | .int32 v =>
      match condition with
      | .Equals => .ok (decide (v < min ∨ v > max))
      | .LessThan => .ok (decide (v ≤ min))
      | .LessThanEquals => .ok (decide (v < min))
      | .GreaterThan => .ok (decide (v ≥ max))
      | .GreaterThanEquals => .ok (decide (v > max))
      | .NotEquals => .ok (decide (min = max ∧ v = min))
      | .Between =>
        match value2 with
        | some (.int32 hi) => .ok (decide (hi < min ∨ v > max))
        | _ => .error .TypeMismatch
      | _ => .ok false
    | _ => .error .TypeMismatch

/-- Modelled from the spec: the truth value of `column condition literal` on a row, for `Int32`
columns and literals and the six comparison operators; false otherwise. -/
def compare_holds (column_id : ColumnID) (condition : PredicateCondition) (literal : Int)
    (row : Row) : Bool :=
  match row[column_id]? with
  | some (.int32 x) =>
    match condition with
    | .Equals => decide (x = literal)
    | .NotEquals => decide (x ≠ literal)
    | .LessThan => decide (x < literal)
    | .LessThanEquals => decide (x ≤ literal)
    | .GreaterThan => decide (x > literal)
    | .GreaterThanEquals => decide (x ≥ literal)
    | _ => false
  | _ => false

/-- Modelled from the spec: the predicate expression `column condition literal` with an `Int32`
literal; spec §4.6: "For binary predicates, produces one normalized predicate". -/
def column_vs_literal (column_id : ColumnID) (condition : PredicateCondition) (literal : Int) :
    AbstractExpression where
  from_expression := some [⟨column_id, condition, .variant (.int32 literal), none⟩]
  holds := compare_holds column_id condition literal

/-! ## Predicates on plans and statistics, and the plans and tables of the examples -/

/-- The operator predicate `op` proves chunk `c` empty on the statistics vector `statistics`:
the chunk's statistics and the segment statistics of the predicate's column are present and
`does_not_contain` answers true. -/
def Excludes (statistics : List (Option ChunkStatistics2)) (op : OperatorScanPredicate)
    (c : ChunkID) : Prop :=
  ∃ v v2 cs seg, op.value = .variant v ∧ get_value2 op.value2 = .ok v2 ∧
    statistics[c]? = some (some cs) ∧ cs.segment_statistics[op.column_id]? = some (some seg) ∧
    seg.does_not_contain op.predicate_condition v v2 = .ok true

/-- Processing the operator predicate `op` on `statistics` raises no error: its second value, if
present, is a value, every chunk's statistics have an entry for its column, and
`does_not_contain` reports no error for its values. -/
def NoFailure (statistics : List (Option ChunkStatistics2)) (op : OperatorScanPredicate) : Prop :=
  ∃ v2, get_value2 op.value2 = .ok v2 ∧ ∀ v, op.value = .variant v →
    ∀ cs, some cs ∈ statistics → ∃ entry, cs.segment_statistics[op.column_id]? = some entry ∧
      ∀ seg, entry = some seg → ∃ b, seg.does_not_contain op.predicate_condition v v2 = .ok b

/-- A predicate node over the node `input` with the predicate `predicate`. -/
def predicate_node (input : NodeId) (outputs : List NodeId) (predicate : AbstractExpression) :
    LQPNode :=
  ⟨.Predicate, some input, none, outputs, predicate, "", []⟩

/-- A predicate expression that `from_expression` turns into `operator_predicates`; its truth
value on rows plays no part where it is used. -/
def expression_of (operator_predicates : List OperatorScanPredicate) : AbstractExpression :=
  ⟨some operator_predicates, fun _ => true⟩

/-- One chunk statistics object for a single `Int32` column with values in `[min, max]`. -/
def range_chunk (min max : Int) : Option ChunkStatistics2 :=
  some ⟨[some (range_statistics min max)]⟩

/-- The statistics of scenario S4: three chunks whose `col_a` covers `[0,9]`, `[10,19]`,
`[20,29]`. -/
def statistics_S4 : List (Option ChunkStatistics2) :=
  [range_chunk 0 9, range_chunk 10 19, range_chunk 20 29]

/-- Statistics in which chunk 0 has no chunk statistics and chunk 1 has no segment statistics
for column 0. -/
def statistics_with_gaps : List (Option ChunkStatistics2) :=
  [none, some ⟨[none]⟩, range_chunk 20 29]

/-- A node `a BETWEEN 5 AND b` followed by `a = b`, with `b` a column. -/
def node_between_column : LQPNode :=
  predicate_node 0 [] (expression_of
    [⟨0, .Between, .variant (.int32 5), some (.column 1)⟩, ⟨0, .Equals, .column 1, none⟩])

/-- A node whose first operator predicate compares the `Int32` column with a string and whose
second compares it with a column. -/
def node_string_then_column : LQPNode :=
  predicate_node 0 [] (expression_of
    [⟨0, .Equals, .variant (.string "x"), none⟩, ⟨0, .Equals, .column 1, none⟩])

/-- A node whose first operator predicate is `col_a < 5` and whose second compares with a
column. -/
def node_less_then_column : LQPNode :=
  predicate_node 0 [] (expression_of
    [⟨0, .LessThan, .variant (.int32 5), none⟩, ⟨0, .Equals, .column 1, none⟩])

/-- The node `a BETWEEN 5 AND b` with `b` a column: a value and a second value that is no
value. -/
def node_between_value_and_column : LQPNode :=
  predicate_node 0 [] (expression_of [⟨0, .Between, .variant (.int32 5), some (.column 1)⟩])

/-- The node `col_a = 'x'` on an `Int32` column. -/
def node_string_literal : LQPNode :=
  predicate_node 0 [] (expression_of [⟨0, .Equals, .variant (.string "x"), none⟩])

/-- `PredicateChain plan p predicate_nodes e`: the nodes `predicate_nodes` are the consecutive
predicate nodes met from `p` downwards along `left_input`, each after the first with at most
one output, and `e` is the first node below them that is no predicate node. -/
inductive PredicateChain (plan : LQP) : NodeId → List NodeId → NodeId → Prop where
  | last {p e : NodeId} {n m : LQPNode} :
      plan[p]? = some n → n.type = .Predicate → n.left_input = some e →
      plan[e]? = some m → m.type ≠ .Predicate → PredicateChain plan p [p] e
  | cons {p q e : NodeId} {n m : LQPNode} {rest : List NodeId} :
      plan[p]? = some n → n.type = .Predicate → n.left_input = some q →
      plan[q]? = some m → m.type = .Predicate → m.output_count ≤ 1 →
      PredicateChain plan q rest e → PredicateChain plan p (p :: rest) e

/-- `ChainEnd plan e st stored`: the node `e` is the stored-table node `st` itself, or one
validate node whose input is `st`; `stored` is the node behind `st`. -/
def ChainEnd (plan : LQP) (e st : NodeId) (stored : LQPNode) : Prop :=
  plan[st]? = some stored ∧ stored.type = .StoredTable ∧
    (e = st ∨ ∃ ne, plan[e]? = some ne ∧ ne.type = .Validate ∧ ne.left_input = some st)

/-- The exclusion sets of the predicate nodes `predicate_nodes` are returned: each node is in
the plan and `_compute_exclude_list` does not fail on it. -/
def ExclusionsReturned (plan : LQP) (statistics : List (Option ChunkStatistics2))
    (predicate_nodes : List NodeId) : Prop :=
  ∀ id ∈ predicate_nodes, ∃ n E, plan[id]? = some n ∧ _compute_exclude_list statistics n = .ok E

/-- Chunk `c` is in the exclusion set that `_compute_exclude_list` returns for one of the
predicate nodes `predicate_nodes`. -/
def InSomeExclusion (plan : LQP) (statistics : List (Option ChunkStatistics2))
    (predicate_nodes : List NodeId) (c : ChunkID) : Prop :=
  ∃ id ∈ predicate_nodes, ∃ n E, plan[id]? = some n ∧
    _compute_exclude_list statistics n = .ok E ∧ c ∈ E

/-- The chunk of single-column rows with the `Int32` values `values`. -/
def chunk_of (values : List Int) : Chunk := values.map (fun v => [AllTypeVariant.int32 v])

/-- The table of scenario S4: three chunks whose `col_a` covers `[0,9]`, `[10,19]`, `[20,29]`,
with statistics `statistics_S4`. -/
def table_S4 : Table :=
  ⟨[chunk_of [0, 5, 9], chunk_of [10, 19], chunk_of [20, 26, 29]], ⟨statistics_S4⟩⟩

/-- A storage manager that holds `table_S4` under the name `t`. -/
def storage_S4 : StorageManager := fun name => if name = "t" then some table_S4 else none

/-- A predicate expression that `from_expression` rejects and that every row satisfies. -/
def no_expression : AbstractExpression := ⟨none, fun _ => true⟩

/-- The stored-table node for table `t` with the given outputs and excluded chunks. -/
def stored_table_node (outputs : List NodeId) (excluded : List ChunkID) : LQPNode :=
  ⟨.StoredTable, none, none, outputs, no_expression, "t", excluded⟩

/-- The plan `col_a > 25 -> StoredTable(t)`; node 1 is its top. -/
def plan_one_predicate : LQP :=
  [stored_table_node [1] [], predicate_node 0 [] (column_vs_literal 0 .GreaterThan 25)]

/-- The plan `col_a < 5 -> col_a > 25 -> StoredTable(t)`; node 2 is its top. -/
def plan_two_predicates : LQP :=
  [stored_table_node [1] [], predicate_node 0 [2] (column_vs_literal 0 .GreaterThan 25),
    predicate_node 1 [] (column_vs_literal 0 .LessThan 5)]

/-- The plan `col_a > 25 -> StoredTable(t)` whose stored-table node already excludes the chunks
1 and 2. -/
def plan_prior_exclusions : LQP :=
  [stored_table_node [1] [1, 2], predicate_node 0 [] (column_vs_literal 0 .GreaterThan 25)]

/-- The statistics of the table say of a chunk that it holds no row for an operator predicate
of `node` only if no row of the chunk satisfies the predicate of `node`: `does_not_contain` is
sound for `node` on every chunk of `table`. -/
def StatisticsSound (table : Table) (node : LQPNode) : Prop :=
  ∀ ops, node.predicate.from_expression = some ops → ∀ op ∈ ops, ∀ c,
    Excludes table.table_statistics2.chunk_statistics op c →
    ∀ chunk, table.chunks[c]? = some chunk → ∀ row ∈ chunk, node.predicate.holds row = false

/-- The plan `col_a < 5 -> col_a > 25 -> StoredTable(t)` in which the lower predicate node
(node 1) has a second consumer, the projection node 3; node 2 is the upper predicate. -/
def plan_shared_predicate : LQP :=
  [stored_table_node [1] [], predicate_node 0 [2, 3] (column_vs_literal 0 .GreaterThan 25),
    predicate_node 1 [] (column_vs_literal 0 .LessThan 5),
    ⟨.Projection, some 1, none, [], no_expression, "", []⟩]

/-- The plan `Union(col_a >= 0 -> StoredTable(t), col_a > 25 -> StoredTable(t))` whose two
predicate branches share the stored-table node 0; node 3 is the union. -/
def plan_union_shared_table : LQP :=
  [stored_table_node [1, 2] [],
    predicate_node 0 [3] (column_vs_literal 0 .GreaterThanEquals 0),
    predicate_node 0 [3] (column_vs_literal 0 .GreaterThan 25),
    ⟨.Union, some 1, some 2, [], no_expression, "", []⟩]

/-- The node with the excluded chunk ids blanked if it is a stored-table node: what of a node
the rule must leave alone. -/
def forget_exclusions (n : LQPNode) : LQPNode :=
  if n.type = .StoredTable then { n with excluded_chunk_ids := [] } else n

/-- The plans agree in everything but the excluded chunk ids of stored-table nodes. -/
def SameStructure (plan plan' : LQP) : Prop :=
  plan'.map forget_exclusions = plan.map forget_exclusions

/-- Abnormal termination through the macros of `utils/assert.hpp`: `Assert` with a condition that
is false, and `Fail`. -/
inductive Abort
  | Assert
  | Fail
  deriving DecidableEq

/-- The function `is_unary_predicate_condition` of `types.cpp`. -/
def is_unary_predicate_condition (predicate_condition : PredicateCondition) : Bool :=
  predicate_condition == .IsNull || predicate_condition == .IsNotNull

/-- The function `is_binary_predicate_condition` of `types.cpp`. -/
def is_binary_predicate_condition (predicate_condition : PredicateCondition) : Bool :=
  predicate_condition == .Equals ||
  predicate_condition == .NotEquals ||
  predicate_condition == .LessThan ||
  predicate_condition == .LessThanEquals ||
  predicate_condition == .GreaterThan ||
  predicate_condition == .GreaterThanEquals ||
  predicate_condition == .NotLike ||
  predicate_condition == .Like

/-- The function `is_lexicographical_predicate_condition` of `types.cpp`. -/
def is_lexicographical_predicate_condition (predicate_condition : PredicateCondition) : Bool :=
  predicate_condition == .Equals ||
  predicate_condition == .NotEquals ||
  predicate_condition == .LessThan ||
  predicate_condition == .LessThanEquals ||
  predicate_condition == .GreaterThan ||
  predicate_condition == .GreaterThanEquals

/-- The function `is_ternary_predicate_condition` of `types.cpp`. -/
def is_ternary_predicate_condition (predicate_condition : PredicateCondition) : Bool :=
  predicate_condition == .Between

/-- The function `flip_predicate_condition` of `types.cpp`; the six cases that end in `Fail`
return the error. -/
def flip_predicate_condition : PredicateCondition → Except Abort PredicateCondition
  | .Equals => .ok .Equals
  | .NotEquals => .ok .NotEquals
  | .LessThan => .ok .GreaterThan
  | .LessThanEquals => .ok .GreaterThanEquals
  | .GreaterThan => .ok .LessThan
  | .GreaterThanEquals => .ok .LessThanEquals
  | .Between => .error .Fail
  | .In => .error .Fail
  | .Like => .error .Fail
  | .NotLike => .error .Fail
  | .IsNull => .error .Fail
  | .IsNotNull => .error .Fail

/-- The function `inverse_predicate_condition` of `types.cpp`; the `default` case ends in
`Fail`. -/
def inverse_predicate_condition : PredicateCondition → Except Abort PredicateCondition
  | .Equals => .ok .NotEquals
  | .NotEquals => .ok .Equals
  | .GreaterThan => .ok .LessThanEquals
  | .LessThanEquals => .ok .GreaterThan
  | .GreaterThanEquals => .ok .LessThan
  | .LessThan => .ok .GreaterThanEquals
  | .Like => .ok .NotLike
  | .NotLike => .ok .Like
  | .IsNull => .ok .IsNotNull
  | .IsNotNull => .ok .IsNull
  | _ => .error .Fail

/-- Modelled from the spec: whether `a op b` holds for two values of a linearly ordered type and
one of the six comparison conditions (spec §4.6 writes them `=`, `≠`, `<`, `≤`, `>`, `≥`); the
other conditions do not compare two values and hold of no pair here. -/
def condition_holds {α : Type} [LinearOrder α] (op : PredicateCondition) (a b : α) : Bool :=
  match op with
  | .Equals => decide (a = b)
  | .NotEquals => decide (a ≠ b)
  | .LessThan => decide (a < b)
  | .LessThanEquals => decide (a ≤ b)
  | .GreaterThan => decide (a > b)
  | .GreaterThanEquals => decide (a ≥ b)
  | _ => false

/-! ## Iteration over LZ4 segments: `lz4_iterable.hpp` -/

/-- Offsets of rows within a chunk. Modelled from the spec: `types.hpp` is not among the sources;
the offset is a 32 bit unsigned number (spec §6 stores positions as `u32`), so arithmetic on it
is taken modulo `chunk_offset_range`. -/
abbrev ChunkOffset := Nat

/-- The number of values of a `ChunkOffset`, `2 ^ 32`. -/
def chunk_offset_range : Nat := 4294967296

/-- Modelled from the spec: an entry of a position list, spec §4.2 "vector of
`(chunk_id, chunk_offset)` pairs". -/
structure RowID where
  chunk_id : ChunkID
  chunk_offset : ChunkOffset
  deriving DecidableEq

/-- The triple `SegmentPosition<T>{value, is_null, chunk_offset}` that the iterators of
`lz4_iterable.hpp` return (lines 82 and 114); spec §4.3 `(value, is_null, chunk_offset)`. -/
structure SegmentPosition (T : Type) where
  value : T
  is_null : Bool
  chunk_offset : ChunkOffset
  deriving DecidableEq

/-- How an iteration can end without a list of triples. -/
inductive IterationFailure
  /-- A read past the end of a vector, through an iterator or through the unchecked
  `operator[]`: C++ gives it no meaning and nothing is reported to the caller. -/
  | undefined_behaviour
  /-- The error kind *OutOfRange* of spec §7. -/
  | OutOfRange
  /-- The model ran out of fuel. -/
  | out_of_fuel
  deriving DecidableEq

/-- A `const_iterator` of a vector: the vector it points into and the position in it. -/
structure VectorIterator (α : Type) where
  vector : List α
  position : Nat

/-- The operator `*it`; reading at or past the end of the vector is undefined. -/
def VectorIterator.dereference {α : Type} (it : VectorIterator α) : Except IterationFailure α :=
  match it.vector[it.position]? with
  | some x => .ok x
  | none => .error .undefined_behaviour

/-- The operator `++it`. -/
def VectorIterator.increment {α : Type} (it : VectorIterator α) : VectorIterator α :=
  { it with position := it.position + 1 }

/-- The operator `it == other` for two iterators of one vector. -/
def VectorIterator.equal {α : Type} (it other : VectorIterator α) : Bool :=
  it.position == other.position

/-- Modelled from the spec: `lz4_segment.hpp` is not among the sources; of a segment the iterable
reads the vector that `decompress()` returns and the vector `null_values()` (spec §6: compressed
bytes and `null_bitmap[size]`). -/
structure LZ4Segment (T : Type) where
  decompressed : List T
  null_values : List Bool

/-- The class `LZ4Iterable::Iterator`, as its constructor of line 65 builds it. -/
structure LZ4Iterable.Iterator (T : Type) where
  _chunk_offset : ChunkOffset
  _data_it : VectorIterator T
  _null_value_it : VectorIterator Bool

/-- The method `Iterator::increment`. -/
def LZ4Iterable.Iterator.increment {T : Type} (it : LZ4Iterable.Iterator T) :
    LZ4Iterable.Iterator T :=
  { _chunk_offset := (it._chunk_offset + 1) % chunk_offset_range
    _data_it := it._data_it.increment
    _null_value_it := it._null_value_it.increment }

/-- The method `Iterator::equal`: only the data iterators are compared. -/
def LZ4Iterable.Iterator.equal {T : Type} (it other : LZ4Iterable.Iterator T) : Bool :=
  it._data_it.equal other._data_it

/-- The method `Iterator::dereference`. -/
def LZ4Iterable.Iterator.dereference {T : Type} (it : LZ4Iterable.Iterator T) :
    Except IterationFailure (SegmentPosition T) :=
  match it._data_it.dereference with
  | .error e => .error e
  | .ok value =>
    match it._null_value_it.dereference with
    | .error e => .error e
    | .ok is_null => .ok ⟨value, is_null, it._chunk_offset⟩

/-- The method `LZ4Iterable::_on_with_iterators(functor)` of lines 19-31. -/
def LZ4Iterable._on_with_iterators {T R : Type} (_segment : LZ4Segment T)
    (functor : LZ4Iterable.Iterator T → LZ4Iterable.Iterator T → R) : R :=
  let decompressed_segment := _segment.decompressed
  let begin_it : LZ4Iterable.Iterator T :=
    ⟨0, ⟨decompressed_segment, 0⟩, ⟨_segment.null_values, 0⟩⟩
  let end_it : LZ4Iterable.Iterator T :=
    ⟨0, ⟨decompressed_segment, decompressed_segment.length⟩,
      ⟨_segment.null_values, _segment.null_values.length⟩⟩
  functor begin_it end_it

/-- Modelled from the spec: the pair that `chunk_offsets()` of the point access base class
returns; `lz4_iterable.hpp` reads its members `offset_in_poslist` and
`offset_in_referenced_chunk` (lines 112-114). -/
structure ChunkOffsetMapping where
  offset_in_poslist : ChunkOffset
  offset_in_referenced_chunk : ChunkOffset

/-- The class `LZ4Iterable::PointAccessIterator`: the two position list iterators that its
constructor hands to the base class (lines 101-103), the data and the null values. -/
structure LZ4Iterable.PointAccessIterator (T : Type) where
  _position_filter_begin : VectorIterator RowID
  _position_filter_it : VectorIterator RowID
  _data : List T
  _null_values : List Bool

/-- Modelled from the spec: `BasePointAccessSegmentIterator` is not among the sources. Its
`chunk_offsets()` pairs the distance of the current position list entry from the begin of the
list, as a `ChunkOffset`, with the chunk offset of that entry: spec §4.3 "for each `chunk_offset`
yields the triple while preserving the list's output position index", and
`segment_iterator_values.hpp` lines 34-40 "The chunk offset can point either into a reference
segment, if returned by a point-access iterator, or into an actual data segment". -/
def LZ4Iterable.PointAccessIterator.chunk_offsets {T : Type}
    (it : LZ4Iterable.PointAccessIterator T) : Except IterationFailure ChunkOffsetMapping :=
  match it._position_filter_it.dereference with
  | .error e => .error e
  | .ok row_id =>
    .ok ⟨(((it._position_filter_it.position : Int) - it._position_filter_begin.position) %
        chunk_offset_range).toNat, row_id.chunk_offset⟩

/-- Modelled from the spec: the increment of `BasePointAccessSegmentIterator` steps to the next
entry of the position list. -/
def LZ4Iterable.PointAccessIterator.increment {T : Type}
    (it : LZ4Iterable.PointAccessIterator T) : LZ4Iterable.PointAccessIterator T :=
  { it with _position_filter_it := it._position_filter_it.increment }

/-- Modelled from the spec: two point access iterators are equal when they stand at the same
entry of the position list. -/
def LZ4Iterable.PointAccessIterator.equal {T : Type}
    (it other : LZ4Iterable.PointAccessIterator T) : Bool :=
  it._position_filter_it.equal other._position_filter_it

/-- The method `PointAccessIterator::dereference` of lines 110-115; `operator[]` does not check
its index. -/
def LZ4Iterable.PointAccessIterator.dereference {T : Type}
    (it : LZ4Iterable.PointAccessIterator T) : Except IterationFailure (SegmentPosition T) :=
  match it.chunk_offsets with
  | .error e => .error e
  | .ok chunk_offsets =>
    match it._data[chunk_offsets.offset_in_referenced_chunk]? with
    | none => .error .undefined_behaviour
    | some value =>
      match it._null_values[chunk_offsets.offset_in_referenced_chunk]? with
      | none => .error .undefined_behaviour
      | some is_null => .ok ⟨value, is_null, chunk_offsets.offset_in_poslist⟩

/-- The method `LZ4Iterable::_on_with_iterators(position_filter, functor)` of lines 33-48. -/
def LZ4Iterable._on_with_iterators_position_filter {T R : Type} (_segment : LZ4Segment T)
    (position_filter : List RowID)
    (functor : LZ4Iterable.PointAccessIterator T → LZ4Iterable.PointAccessIterator T → R) : R :=
  let decompressed_segment := _segment.decompressed
  let begin_it : LZ4Iterable.PointAccessIterator T :=
    ⟨⟨position_filter, 0⟩, ⟨position_filter, 0⟩, decompressed_segment, _segment.null_values⟩
  let end_it : LZ4Iterable.PointAccessIterator T :=
    ⟨⟨position_filter, 0⟩, ⟨position_filter, position_filter.length⟩, decompressed_segment,
      _segment.null_values⟩
  functor begin_it end_it

/-- Modelled from the spec: the functor that the iterable is handed by `for_each` of
`segment_iterables.hpp`, which is not among the sources: it visits the positions from the begin
iterator "until the begin iterator equals the end iterator" (comment of lines 29 and 46)
and collects the triples (spec §4.3). -/
def collect_positions {I T : Type} (equal : I → I → Bool) (increment : I → I)
    (dereference : I → Except IterationFailure (SegmentPosition T)) :
    Nat → I → I → Except IterationFailure (List (SegmentPosition T))
  | 0, _, _ => .error .out_of_fuel
  | fuel + 1, it, end_it =>
    if equal it end_it then .ok []
    else
      match dereference it with
      | .error e => .error e
      | .ok position =>
        match collect_positions equal increment dereference fuel (increment it) end_it with
        | .error e => .error e
        | .ok positions => .ok (position :: positions)

/-- Sequential iteration over an LZ4 segment: `_on_with_iterators` with the collecting
functor. -/
def LZ4Iterable.for_each {T : Type} (_segment : LZ4Segment T) (fuel : Nat) :
    Except IterationFailure (List (SegmentPosition T)) :=
  LZ4Iterable._on_with_iterators _segment
    (collect_positions LZ4Iterable.Iterator.equal LZ4Iterable.Iterator.increment
      LZ4Iterable.Iterator.dereference fuel)

/-- Point access iteration over an LZ4 segment with a position list. -/
def LZ4Iterable.for_each_position_filter {T : Type} (_segment : LZ4Segment T)
    (position_filter : List RowID) (fuel : Nat) :
    Except IterationFailure (List (SegmentPosition T)) :=
  LZ4Iterable._on_with_iterators_position_filter _segment position_filter
    (collect_positions LZ4Iterable.PointAccessIterator.equal
      LZ4Iterable.PointAccessIterator.increment LZ4Iterable.PointAccessIterator.dereference fuel)

/-- The LZ4 segment with the values 10, 20, 30, the second of which is null. -/
def segment_three_values : LZ4Segment Int := ⟨[10, 20, 30], [false, true, false]⟩

/-! ## Segment statistics: `segment_statistics2.cpp` -/

/-- Modelled from the spec: the closed set of data types of spec §2, `{Int32, Int64, Float,
Double, String, Null}`, under the names of the enumeration `DataType` (the sources name
`DataType::Int`); it stands for the template argument `T`. -/
inductive DataType
  | Null
  | Int
  | Long
  | Float
  | Double
  | String
  deriving DecidableEq

/-- Modelled from the spec: `abstract_histogram.hpp` is not among the sources. The enumerators
`EqualDistinctCount`, `EqualWidth` and `Generic` are the ones the switch of
`set_statistics_object` names (spec §4.4 lists these three variants); `Other` stands for any
further enumerator, which the `default` case of that switch receives. -/
inductive HistogramType
  | EqualDistinctCount
  | EqualWidth
  | Generic
  | Other
  deriving DecidableEq

/-- Modelled from the spec: a bucket of a histogram, spec §4.4
`(min, max, cumulative_count, distinct_count)`. -/
structure HistogramBin where
  min : AllTypeVariant
  max : AllTypeVariant
  cumulative_count : Nat
  distinct_count : Nat
  deriving DecidableEq

/-- Modelled from the spec: an object of a class `AbstractHistogram<T>`: the data type `T`, what
its `histogram_type()` returns, and its buckets. -/
structure AbstractHistogram where
  data_type : DataType
  histogram_type : HistogramType
  bins : List HistogramBin
  deriving DecidableEq

/-- Modelled from the spec: an `AbstractStatisticsObject` is a histogram or a statistics object
of some other class. -/
inductive AbstractStatisticsObject
  | histogram (h : AbstractHistogram)
  | other
  deriving DecidableEq

/-- The class `SegmentStatistics2<T>`: the data type `T` and the three histogram pointers that
`segment_statistics2.cpp` assigns, null when `none`. -/
structure SegmentStatistics2 where
  data_type : DataType
  equal_distinct_count_histogram : Option AbstractHistogram
  equal_width_histogram : Option AbstractHistogram
  generic_histogram : Option AbstractHistogram
  deriving DecidableEq

/-- A freshly constructed `SegmentStatistics2<T>`, as `std::make_shared<SegmentStatistics2<T>>()`
of line 35 makes it: all three pointers are null. -/
def SegmentStatistics2.fresh (T : DataType) : SegmentStatistics2 := ⟨T, none, none, none⟩

/-- The cast `std::dynamic_pointer_cast<AbstractHistogram<T>>` of line 15: null unless the
pointer holds a histogram over `T`. -/
def dynamic_pointer_cast (T : DataType) (statistics_object : Option AbstractStatisticsObject) :
    Option AbstractHistogram :=
  match statistics_object with
  | some (.histogram h) => if h.data_type = T then some h else none
  | _ => none

/-- The method `SegmentStatistics2<T>::set_statistics_object`: the object after the call and
whether the call returned or was aborted by `Assert` or `Fail`. -/
def SegmentStatistics2.set_statistics_object (self : SegmentStatistics2)
    (statistics_object : Option AbstractStatisticsObject) :
    SegmentStatistics2 × Except Abort Unit :=
  match dynamic_pointer_cast self.data_type statistics_object with
  | none => (self, .error .Assert)
  | some histogram_object =>
    match histogram_object.histogram_type with
    | .EqualDistinctCount =>
      ({ self with equal_distinct_count_histogram := some histogram_object }, .ok ())
    | .EqualWidth => ({ self with equal_width_histogram := some histogram_object }, .ok ())
    | .Generic => ({ self with generic_histogram := some histogram_object }, .ok ())
    | .Other => (self, .error .Fail)

/-- A sequence of calls of `set_statistics_object` on one object; it ends at the first call
that is aborted. -/
def SegmentStatistics2.set_statistics_objects (self : SegmentStatistics2) :
    List (Option AbstractStatisticsObject) → SegmentStatistics2 × Except Abort Unit
  | [] => (self, .ok ())
  | statistics_object :: rest =>
    match self.set_statistics_object statistics_object with
    | (next, .ok ()) => next.set_statistics_objects rest
    | (next, .error e) => (next, .error e)

/-- The number of histogram pointers of a `SegmentStatistics2` that are not null. -/
def SegmentStatistics2.populated_slots (self : SegmentStatistics2) : Nat :=
  (if self.equal_distinct_count_histogram.isSome then 1 else 0) +
  (if self.equal_width_histogram.isSome then 1 else 0) +
  (if self.generic_histogram.isSome then 1 else 0)

/-- An equal distinct count histogram over `Int` with one bucket. -/
def histogram_equal_distinct_count : AbstractHistogram :=
  ⟨.Int, .EqualDistinctCount, [⟨.int32 0, .int32 9, 10, 10⟩]⟩

/-- An equal width histogram over `Int` with one bucket. -/
def histogram_equal_width : AbstractHistogram :=
  ⟨.Int, .EqualWidth, [⟨.int32 0, .int32 9, 10, 10⟩]⟩

/-- A histogram over `String`. -/
def histogram_string : AbstractHistogram :=
  ⟨.String, .Generic, [⟨.string "a", .string "z", 3, 3⟩]⟩

/-! ## `ArithmeticExpression::as_column_name` and the cross-join cardinality of the cost model -/

/-- Modelled from the spec: the enumeration `ArithmeticOperator` of `arithmetic_expression.hpp`,
which is not among the sources; `is_nullable` (lines 39-44) names `Division`, `Modulo` and
`Power`. -/
inductive ArithmeticOperator
  | Addition
  | Subtraction
  | Multiplication
  | Division
  | Modulo
  | Power
  deriving DecidableEq

/-- The class `ArithmeticExpression` as its constructor of lines 10-13 builds it: the operator
and the pointers to the two operands. -/
structure ArithmeticExpression where
  arithmetic_operator : ArithmeticOperator
  left_operand : Option AbstractExpression
  right_operand : Option AbstractExpression

/-- The method `ArithmeticExpression::as_column_name` of lines 31-37: a stream is created,
`Fail` is called with the message `Todo`, and the `return` behind it hands back the content
of the stream. -/
def ArithmeticExpression.as_column_name (_self : ArithmeticExpression) : Except Abort String :=
  let stream : String := ""
  match (Except.error Abort.Fail : Except Abort Unit) with
  | .error e => .error e
  | .ok _ => .ok stream

/-- The number of values of `uint64_t`, `2 ^ 64`. -/
def uint64_range : Nat := 18446744073709551616

/-- The `total_input_row_count` of lines 88-89 of
`CostModelFeatureExtractor::_extract_general_features`:
`std::max<uint64_t>(1, left_input_row_count) * std::max<uint64_t>(1, right_input_row_count)`,
a product of `uint64_t` values and so taken modulo `2 ^ 64`. -/
def total_input_row_count (left_input_row_count right_input_row_count : Nat) : Nat :=
  (max 1 (left_input_row_count % uint64_range) *
    max 1 (right_input_row_count % uint64_range)) % uint64_range

/-! ## Scaling of segment statistics: `SegmentStatistics2<T>::scale_with_selectivity` -/

/-- The identity position list `[(c, 0), (c, 1), ..., (c, n - 1)]` of chunk `c`. -/
def identity_position_list (c : ChunkID) (n : Nat) : List RowID :=
  (List.range n).map (fun i => ⟨c, i⟩)

/-- The predicate nodes `predsA` of `planA` and `predsB` of `planB` carry, one by one, the same
predicate expressions. -/
def SamePredicates (planA planB : LQP) (predsA predsB : List NodeId) : Prop :=
  List.Forall₂ (fun a b => ∃ na nb, planA[a]? = some na ∧ planB[b]? = some nb ∧
    nb.predicate = na.predicate) predsA predsB

/-- The plan `col_a > 25 -> Validate -> StoredTable(t)`; node 2 is its top. -/
def plan_validate : LQP :=
  [stored_table_node [1] [], ⟨.Validate, some 0, none, [2], no_expression, "", []⟩,
    predicate_node 1 [] (column_vs_literal 0 .GreaterThan 25)]

/-- The plan `col_a > 25 -> Validate -> Validate -> StoredTable(t)`; node 3 is its top. -/
def plan_two_validates : LQP :=
  [stored_table_node [1] [], ⟨.Validate, some 0, none, [2], no_expression, "", []⟩,
    ⟨.Validate, some 1, none, [3], no_expression, "", []⟩,
    predicate_node 2 [] (column_vs_literal 0 .GreaterThan 25)]

theorem mem_set_insert (a x : ChunkID) (s : List ChunkID) :
    a ∈ set_insert x s ↔ a = x ∨ a ∈ s := by
  induction s with
  | nil => simp [set_insert]
  | cons y ys ih =>
    unfold set_insert
    split_ifs with h1 h2
    · simp
    · subst h2; simp
    · simp only [List.mem_cons, ih]; tauto

theorem set_insert_sorted (x : ChunkID) (s : List ChunkID) (hs : s.Sorted (· < ·)) :
    (set_insert x s).Sorted (· < ·) := by
  induction s with
  | nil => simp [set_insert]
  | cons y ys ih =>
    unfold set_insert
    split_ifs with h1 h2
    · refine List.sorted_cons.2 ⟨?_, hs⟩
      intro b hb
      rcases List.mem_cons.1 hb with rfl | hb
      · exact h1
      · exact lt_trans h1 (List.rel_of_sorted_cons hs b hb)
    · exact hs
    · have hy := List.rel_of_sorted_cons hs
      refine List.sorted_cons.2 ⟨?_, ih hs.of_cons⟩
      intro b hb
      rcases (mem_set_insert b x ys).1 hb with rfl | hb
      · (simp only [ChunkID] at *; omega)
      · exact hy b hb

theorem mem_set_insert_range (a : ChunkID) (xs s : List ChunkID) :
    a ∈ set_insert_range s xs ↔ a ∈ s ∨ a ∈ xs := by
  induction xs generalizing s with
  | nil => simp [set_insert_range]
  | cons x xs ih =>
    have := ih (set_insert x s)
    simp only [set_insert_range, List.foldl_cons] at this ⊢
    rw [this, mem_set_insert, List.mem_cons]; tauto

theorem set_insert_range_sorted (xs s : List ChunkID) (hs : s.Sorted (· < ·)) :
    (set_insert_range s xs).Sorted (· < ·) := by
  induction xs generalizing s with
  | nil => simpa [set_insert_range] using hs
  | cons x xs ih =>
    have := ih (set_insert x s) (set_insert_sorted x s hs)
    simpa only [set_insert_range, List.foldl_cons] using this

theorem set_intersection_loop_subset (a : ChunkID) (turns : Nat) (xs ys : List ChunkID)
    (h : a ∈ set_intersection_loop turns xs ys) : a ∈ xs ∧ a ∈ ys := by
  induction turns generalizing xs ys with
  | zero => simp [set_intersection_loop] at h
  | succ turns ih =>
    match xs, ys with
    | [], _ => simp [set_intersection_loop] at h
    | _ :: _, [] => simp [set_intersection_loop] at h
    | x :: xs, y :: ys =>
      simp only [set_intersection_loop] at h
      split_ifs at h with hlt hgt
      · have := ih _ _ h
        exact ⟨List.mem_cons_of_mem _ this.1, this.2⟩
      · have := ih _ _ h
        exact ⟨this.1, List.mem_cons_of_mem _ this.2⟩
      · have hxy : x = y := by (simp only [ChunkID] at *; omega)
        rcases List.mem_cons.1 h with rfl | h
        · exact ⟨List.mem_cons_self _ _, by rw [hxy]; exact List.mem_cons_self _ _⟩
        · have := ih _ _ h
          exact ⟨List.mem_cons_of_mem _ this.1, List.mem_cons_of_mem _ this.2⟩

theorem mem_set_intersection_loop (a : ChunkID) (turns : Nat) (xs ys : List ChunkID)
    (hturns : xs.length + ys.length ≤ turns)
    (hxs : xs.Sorted (· ≤ ·)) (hys : ys.Sorted (· ≤ ·)) (hx : a ∈ xs) (hy : a ∈ ys) :
    a ∈ set_intersection_loop turns xs ys := by
  induction turns generalizing xs ys with
  | zero =>
    have : xs.length = 0 := by omega
    rw [List.length_eq_zero] at this
    subst this; simp at hx
  | succ turns ih =>
    match xs, ys with
    | [], _ => simp at hx
    | _ :: _, [] => simp at hy
    | x :: xs, y :: ys =>
      simp only [List.length_cons] at hturns
      simp only [set_intersection_loop]
      split_ifs with hlt hgt
      · refine ih xs (y :: ys) (by simp only [List.length_cons]; omega) hxs.of_cons hys ?_ hy
        rcases List.mem_cons.1 hx with rfl | hx
        · exfalso
          rcases List.mem_cons.1 hy with rfl | hy
          · (simp only [ChunkID] at *; omega)
          · have := List.rel_of_sorted_cons hys a hy; (simp only [ChunkID] at *; omega)
        · exact hx
      · refine ih (x :: xs) ys (by simp only [List.length_cons]; omega) hxs hys.of_cons hx ?_
        rcases List.mem_cons.1 hy with rfl | hy
        · exfalso
          rcases List.mem_cons.1 hx with rfl | hx
          · (simp only [ChunkID] at *; omega)
          · have := List.rel_of_sorted_cons hxs a hx; (simp only [ChunkID] at *; omega)
        · exact hy
      · have hxy : x = y := by (simp only [ChunkID] at *; omega)
        subst hxy
        by_cases hax : a = x
        · subst hax; exact List.mem_cons_self _ _
        · refine List.mem_cons_of_mem _ (ih xs ys (by omega) hxs.of_cons hys.of_cons ?_ ?_)
          · exact (List.mem_cons.1 hx).resolve_left hax
          · exact (List.mem_cons.1 hy).resolve_left hax

theorem set_intersection_loop_sorted (turns : Nat) (xs ys : List ChunkID)
    (hxs : xs.Sorted (· ≤ ·)) : (set_intersection_loop turns xs ys).Sorted (· ≤ ·) := by
  induction turns generalizing xs ys with
  | zero => simp [set_intersection_loop]
  | succ turns ih =>
    match xs, ys with
    | [], _ => simp [set_intersection_loop]
    | _ :: _, [] => simp [set_intersection_loop]
    | x :: xs, y :: ys =>
      simp only [set_intersection_loop]
      split_ifs with hlt hgt
      · exact ih _ _ hxs.of_cons
      · exact ih _ _ hxs
      · refine List.sorted_cons.2 ⟨?_, ih _ _ hxs.of_cons⟩
        intro b hb
        exact List.rel_of_sorted_cons hxs b (set_intersection_loop_subset b _ xs ys hb).1

theorem set_intersection_subset (a : ChunkID) (xs ys : List ChunkID)
    (h : a ∈ set_intersection xs ys) : a ∈ xs ∧ a ∈ ys :=
  set_intersection_loop_subset a _ xs ys h

theorem mem_set_intersection (a : ChunkID) (xs ys : List ChunkID)
    (hxs : xs.Sorted (· ≤ ·)) (hys : ys.Sorted (· ≤ ·)) :
    a ∈ set_intersection xs ys ↔ a ∈ xs ∧ a ∈ ys :=
  ⟨set_intersection_subset a xs ys,
    fun h => mem_set_intersection_loop a _ xs ys (le_refl _) hxs hys h.1 h.2⟩

theorem set_intersection_sorted (xs ys : List ChunkID) (hxs : xs.Sorted (· ≤ ·)) :
    (set_intersection xs ys).Sorted (· ≤ ·) :=
  set_intersection_loop_sorted _ xs ys hxs

theorem exclude_chunks_mem (column_id : ColumnID) (condition : PredicateCondition)
    (value : AllTypeVariant) (value2 : Option AllTypeVariant)
    (statistics : List (Option ChunkStatistics2)) (k : ChunkID) (result r : List ChunkID)
    (h : exclude_chunks column_id condition value value2 statistics k result = .ok r)
    (c : ChunkID) :
    c ∈ r ↔ c ∈ result ∨ ∃ i cs seg, c = k + i ∧ statistics[i]? = some (some cs) ∧
      cs.segment_statistics[column_id]? = some (some seg) ∧
      seg.does_not_contain condition value value2 = .ok true := by
  induction statistics generalizing k result with
  | nil =>
    simp only [exclude_chunks, Except.ok.injEq] at h
    subst h; simp
  | cons entry rest ih =>
    cases entry with
    | none =>
      simp only [exclude_chunks] at h
      rw [ih (k + 1) result h]
      constructor
      · rintro (h | ⟨i, cs, seg, rfl, h1, h2, h3⟩)
        · exact Or.inl h
        · exact Or.inr ⟨i + 1, cs, seg, by simp only [ChunkID] at *; omega, by simpa using h1, h2, h3⟩
      · rintro (h | ⟨i, cs, seg, rfl, h1, h2, h3⟩)
        · exact Or.inl h
        · cases i with
          | zero => simp at h1
          | succ i =>
            exact Or.inr ⟨i, cs, seg, by simp only [ChunkID] at *; omega, by simpa using h1, h2, h3⟩
    | some chunk_statistics =>
      simp only [exclude_chunks] at h
      split at h
      · cases h
      · rw [ih (k + 1) result h]
        constructor
        · rintro (h | ⟨i, cs, seg, rfl, h1, h2, h3⟩)
          · exact Or.inl h
          · exact Or.inr ⟨i + 1, cs, seg, by simp only [ChunkID] at *; omega, by simpa using h1, h2, h3⟩
        · rintro (h | ⟨i, cs, seg, rfl, h1, h2, h3⟩)
          · exact Or.inl h
          · cases i with
            | zero =>
              simp only [List.getElem?_cons_zero, Option.some.injEq] at h1
              subst h1
              simp_all
            | succ i =>
              exact Or.inr ⟨i, cs, seg, by simp only [ChunkID] at *; omega, by simpa using h1, h2, h3⟩
      · rename_i segment_statistics hseg
        split at h
        · cases h
        · rename_i hdnc
          rw [ih (k + 1) _ h, mem_set_insert]
          constructor
          · rintro ((rfl | h) | ⟨i, cs, seg, rfl, h1, h2, h3⟩)
            · exact Or.inr ⟨0, chunk_statistics, segment_statistics, rfl, by simp, hseg, hdnc⟩
            · exact Or.inl h
            · exact Or.inr ⟨i + 1, cs, seg, by simp only [ChunkID] at *; omega, by simpa using h1, h2, h3⟩
          · rintro (h | ⟨i, cs, seg, rfl, h1, h2, h3⟩)
            · exact Or.inl (Or.inr h)
            · cases i with
              | zero => exact Or.inl (Or.inl rfl)
              | succ i =>
                exact Or.inr ⟨i, cs, seg, by simp only [ChunkID] at *; omega, by simpa using h1, h2, h3⟩
        · rename_i hdnc
          rw [ih (k + 1) result h]
          constructor
          · rintro (h | ⟨i, cs, seg, rfl, h1, h2, h3⟩)
            · exact Or.inl h
            · exact Or.inr ⟨i + 1, cs, seg, by simp only [ChunkID] at *; omega, by simpa using h1, h2, h3⟩
          · rintro (h | ⟨i, cs, seg, rfl, h1, h2, h3⟩)
            · exact Or.inl h
            · cases i with
              | zero =>
                simp only [List.getElem?_cons_zero, Option.some.injEq] at h1
                subst h1
                rw [hseg] at h2
                simp only [Option.some.injEq] at h2
                subst h2
                rw [hdnc] at h3
                cases h3
              | succ i =>
                exact Or.inr ⟨i, cs, seg, by simp only [ChunkID] at *; omega, by simpa using h1, h2, h3⟩

theorem exclude_chunks_sorted (column_id : ColumnID) (condition : PredicateCondition)
    (value : AllTypeVariant) (value2 : Option AllTypeVariant)
    (statistics : List (Option ChunkStatistics2)) (k : ChunkID) (result r : List ChunkID)
    (h : exclude_chunks column_id condition value value2 statistics k result = .ok r)
    (hs : result.Sorted (· < ·)) : r.Sorted (· < ·) := by
  induction statistics generalizing k result with
  | nil =>
    simp only [exclude_chunks, Except.ok.injEq] at h
    subst h; exact hs
  | cons entry rest ih =>
    cases entry with
    | none =>
      simp only [exclude_chunks] at h
      exact ih (k + 1) result h hs
    | some chunk_statistics =>
      simp only [exclude_chunks] at h
      split at h
      · cases h
      · exact ih (k + 1) result h hs
      · split at h
        · cases h
        · exact ih (k + 1) _ h (set_insert_sorted k result hs)
        · exact ih (k + 1) result h hs

theorem exclude_chunks_ok (column_id : ColumnID) (condition : PredicateCondition)
    (value : AllTypeVariant) (value2 : Option AllTypeVariant)
    (statistics : List (Option ChunkStatistics2)) (k : ChunkID) (result : List ChunkID)
    (hok : ∀ cs, some cs ∈ statistics → ∃ entry, cs.segment_statistics[column_id]? = some entry ∧
      ∀ seg, entry = some seg → ∃ b, seg.does_not_contain condition value value2 = .ok b) :
    ∃ r, exclude_chunks column_id condition value value2 statistics k result = .ok r := by
  induction statistics generalizing k result with
  | nil => exact ⟨result, rfl⟩
  | cons entry rest ih =>
    have hrest : ∀ cs, some cs ∈ rest → ∃ entry, cs.segment_statistics[column_id]? = some entry ∧
        ∀ seg, entry = some seg → ∃ b, seg.does_not_contain condition value value2 = .ok b :=
      fun cs hcs => hok cs (List.mem_cons_of_mem _ hcs)
    cases entry with
    | none =>
      simp only [exclude_chunks]
      exact ih (k + 1) result hrest
    | some chunk_statistics =>
      obtain ⟨e, he, hseg⟩ := hok chunk_statistics (List.mem_cons_self _ _)
      simp only [exclude_chunks, he]
      cases e with
      | none => exact ih (k + 1) result hrest
      | some seg =>
        obtain ⟨b, hb⟩ := hseg seg rfl
        simp only [hb]
        cases b
        · exact ih (k + 1) result hrest
        · exact ih (k + 1) _ hrest

theorem exclude_for_predicates_mem (statistics : List (Option ChunkStatistics2))
    (ops : List OperatorScanPredicate) (result r : List ChunkID)
    (h : exclude_for_predicates statistics ops result = .ok r) (c : ChunkID) (hc : c ∈ r) :
    c ∈ result ∨ ∃ op ∈ ops, Excludes statistics op c := by
  induction ops generalizing result with
  | nil =>
    simp only [exclude_for_predicates, Except.ok.injEq] at h
    subst h; exact Or.inl hc
  | cons op rest ih =>
    simp only [exclude_for_predicates] at h
    split at h
    · simp only [Except.ok.injEq] at h
      subst h; simp at hc
    · split at h
      · cases h
      · rename_i value hvalue
        split at h
        · cases h
        · rename_i value2 hvalue2
          split at h
          · cases h
          · rename_i result' hresult'
            rcases ih result' h with h' | ⟨op', hop', hex⟩
            · rcases (exclude_chunks_mem _ _ _ _ _ _ _ _ hresult' c).1 h' with
                h'' | ⟨i, cs, seg, hi, h1, h2, h3⟩
              · exact Or.inl h''
              · refine Or.inr ⟨op, List.mem_cons_self _ _, value, value2, cs, seg, ?_, hvalue2, ?_,
                  h2, h3⟩
                · cases hv : op.value <;> simp_all [boost_get]
                · simp only [Nat.zero_add] at hi
                  subst hi; exact h1
            · exact Or.inr ⟨op', List.mem_cons_of_mem _ hop', hex⟩

theorem exclude_for_predicates_sorted (statistics : List (Option ChunkStatistics2))
    (ops : List OperatorScanPredicate) (result r : List ChunkID)
    (h : exclude_for_predicates statistics ops result = .ok r)
    (hs : result.Sorted (· < ·)) : r.Sorted (· < ·) := by
  induction ops generalizing result with
  | nil =>
    simp only [exclude_for_predicates, Except.ok.injEq] at h
    subst h; exact hs
  | cons op rest ih =>
    simp only [exclude_for_predicates] at h
    split at h
    · simp only [Except.ok.injEq] at h
      subst h; exact List.sorted_nil
    · split at h
      · cases h
      · split at h
        · cases h
        · split at h
          · cases h
          · rename_i result' hresult'
            exact ih result' h (exclude_chunks_sorted _ _ _ _ _ _ _ _ hresult' hs)

theorem _compute_exclude_list_mem (statistics : List (Option ChunkStatistics2))
    (node : LQPNode) (r : List ChunkID) (h : _compute_exclude_list statistics node = .ok r)
    (c : ChunkID) (hc : c ∈ r) :
    ∃ ops, node.predicate.from_expression = some ops ∧ ∃ op ∈ ops, Excludes statistics op c := by
  unfold _compute_exclude_list at h
  split at h
  · simp only [Except.ok.injEq] at h
    subst h; simp at hc
  · rename_i ops hops
    rcases exclude_for_predicates_mem statistics ops [] r h c hc with h' | h'
    · simp at h'
    · exact ⟨ops, hops, h'⟩

theorem _compute_exclude_list_sorted (statistics : List (Option ChunkStatistics2))
    (node : LQPNode) (r : List ChunkID) (h : _compute_exclude_list statistics node = .ok r) :
    r.Sorted (· < ·) := by
  unfold _compute_exclude_list at h
  split at h
  · simp only [Except.ok.injEq] at h
    subst h; exact List.sorted_nil
  · exact exclude_for_predicates_sorted statistics _ [] r h List.sorted_nil

theorem exclude_for_predicates_non_variant (statistics : List (Option ChunkStatistics2))
    (pre post : List OperatorScanPredicate) (op : OperatorScanPredicate) (result : List ChunkID)
    (hop : is_variant op.value = false) (hpre : ∀ p ∈ pre, NoFailure statistics p) :
    exclude_for_predicates statistics (pre ++ op :: post) result = .ok [] := by
  induction pre generalizing result with
  | nil => simp [exclude_for_predicates, hop]
  | cons p pre ih =>
    have hrest : ∀ q ∈ pre, NoFailure statistics q := fun q hq => hpre q (List.mem_cons_of_mem _ hq)
    obtain ⟨v2, hv2, hp⟩ := hpre p (List.mem_cons_self _ _)
    simp only [List.cons_append, exclude_for_predicates]
    cases hv : p.value with
    | variant v =>
      obtain ⟨r, hr⟩ := exclude_chunks_ok p.column_id p.predicate_condition v v2 statistics 0
        result (hp v hv)
      simp only [is_variant, boost_get, hv2, hr, Bool.not_true]
      exact ih r hrest
    | column c => simp [is_variant]
    | parameter q => simp [is_variant]

/-- C5: a chunk id whose chunk-statistics entry is null, or whose segment-statistics entry for
the column of each operator predicate of the node is null, is not a member of the set that
`_compute_exclude_list` returns. -/
theorem compute_exclude_list_skips_missing_statistics
    (statistics : List (Option ChunkStatistics2)) (node : LQPNode) (r : List ChunkID)
    (c : ChunkID) (h : _compute_exclude_list statistics node = .ok r) :
    (statistics[c]? = some none → c ∉ r) ∧
    (∀ cs, statistics[c]? = some (some cs) →
      (∀ ops, node.predicate.from_expression = some ops → ∀ op ∈ ops,
        cs.segment_statistics[op.column_id]? = some none) → c ∉ r) := by
  constructor
  · intro hnull hc
    obtain ⟨ops, _, op, _, v, v2, cs, seg, _, _, hcs, _⟩ :=
      _compute_exclude_list_mem statistics node r h c hc
    rw [hnull] at hcs
    cases hcs
  · intro cs hcs hnull hc
    obtain ⟨ops, hops, op, hop, v, v2, cs', seg, _, _, hcs', hseg, _⟩ :=
      _compute_exclude_list_mem statistics node r h c hc
    rw [hcs] at hcs'
    simp only [Option.some.injEq] at hcs'
    subst hcs'
    rw [hnull ops hops op hop] at hseg
    cases hseg

/-- On statistics in which chunk 0 has no chunk statistics and chunk 1 no segment statistics, the
predicate `col_a < 5` excludes chunk 2 alone. -/
theorem compute_exclude_list_skips_missing_statistics_witness :
    _compute_exclude_list statistics_with_gaps
        (predicate_node 0 [] (column_vs_literal 0 .LessThan 5)) = .ok [2] ∧
      0 ∉ [2] ∧ 1 ∉ [2] :=
  ⟨rfl,
    (compute_exclude_list_skips_missing_statistics statistics_with_gaps
      (predicate_node 0 [] (column_vs_literal 0 .LessThan 5)) [2] 0 rfl).1 rfl,
    (compute_exclude_list_skips_missing_statistics statistics_with_gaps
      (predicate_node 0 [] (column_vs_literal 0 .LessThan 5)) [2] 1 rfl).2 ⟨[none]⟩ rfl
      (by
        intro ops hops op hop
        simp only [predicate_node, column_vs_literal, Option.some.injEq] at hops
        subst hops
        simp only [List.mem_singleton] at hop
        subst hop
        rfl)⟩

/-- C6, as stated, fails: a node with an operator predicate whose value is a column does not
return the empty set when an operator predicate before it fails, be it on a second value that
is a column (`bad_get`) or on an error of `does_not_contain`. -/
theorem compute_exclude_list_non_variant_not_always_empty :
    (∃ op ∈ [(⟨0, .Between, .variant (.int32 5), some (.column 1)⟩ : OperatorScanPredicate),
          ⟨0, .Equals, .column 1, none⟩], is_variant op.value = false) ∧
      node_between_column.predicate.from_expression =
        some [⟨0, .Between, .variant (.int32 5), some (.column 1)⟩,
          ⟨0, .Equals, .column 1, none⟩] ∧
      _compute_exclude_list statistics_S4 node_between_column = .error .bad_get ∧
      _compute_exclude_list statistics_S4 node_between_column ≠ .ok [] ∧
      _compute_exclude_list statistics_S4 node_string_then_column =
        .error (.statistics .TypeMismatch) ∧
      _compute_exclude_list statistics_S4 node_string_then_column ≠ .ok [] := by
  refine ⟨⟨⟨0, .Equals, .column 1, none⟩, by simp, rfl⟩, rfl, rfl, ?_, rfl, ?_⟩
  · intro h; cases h
  · intro h; cases h

/-- C6, amended: when `from_expression` yields an operator predicate whose value is not a
variant, and the operator predicates before it are processed without error, then
`_compute_exclude_list` returns the empty set, whatever those before it excluded. -/
theorem compute_exclude_list_non_variant_empty (statistics : List (Option ChunkStatistics2))
    (node : LQPNode) (pre post : List OperatorScanPredicate) (op : OperatorScanPredicate)
    (hops : node.predicate.from_expression = some (pre ++ op :: post))
    (hop : is_variant op.value = false) (hpre : ∀ p ∈ pre, NoFailure statistics p) :
    _compute_exclude_list statistics node = .ok [] := by
  unfold _compute_exclude_list
  rw [hops]
  exact exclude_for_predicates_non_variant statistics pre post op [] hop hpre

theorem noFailure_less_than_S4 :
    NoFailure statistics_S4 ⟨0, .LessThan, .variant (.int32 5), none⟩ := by
  refine ⟨none, rfl, ?_⟩
  intro v hv cs hcs
  simp only [AllParameterVariant.variant.injEq] at hv
  subst hv
  simp only [statistics_S4, range_chunk, List.mem_cons, Option.some.injEq, List.mem_singleton,
    List.not_mem_nil, or_false] at hcs
  rcases hcs with rfl | rfl | rfl <;>
    exact ⟨some _, rfl, fun seg hseg => by
      cases hseg
      exact ⟨_, rfl⟩⟩

/-- On the statistics of S4, `col_a < 5` alone excludes the chunks 1 and 2; followed by a comparison
with a column in the same node, nothing is excluded. -/
theorem compute_exclude_list_non_variant_empty_witness :
    _compute_exclude_list statistics_S4 (predicate_node 0 [] (column_vs_literal 0 .LessThan 5))
        = .ok [1, 2] ∧
      _compute_exclude_list statistics_S4 node_less_then_column = .ok [] :=
  ⟨rfl, compute_exclude_list_non_variant_empty statistics_S4 node_less_then_column
    [⟨0, .LessThan, .variant (.int32 5), none⟩] [] ⟨0, .Equals, .column 1, none⟩ rfl rfl
    (by
      intro p hp
      simp only [List.mem_singleton] at hp
      subst hp
      exact noFailure_less_than_S4)⟩

theorem PredicateChain.head_mem {plan : LQP} {p e : NodeId} {preds : List NodeId}
    (h : PredicateChain plan p preds e) : ∃ rest, preds = p :: rest := by
  cases h with
  | last => exact ⟨[], rfl⟩
  | cons => exact ⟨_, rfl⟩

theorem PredicateChain.head_node {plan : LQP} {p e : NodeId} {preds : List NodeId}
    (h : PredicateChain plan p preds e) : ∃ n, plan[p]? = some n ∧ n.type = .Predicate := by
  cases h with
  | last h1 h2 => exact ⟨_, h1, h2⟩
  | cons h1 h2 => exact ⟨_, h1, h2⟩

theorem gather_predicate_nodes_chain {plan : LQP} {p e : NodeId} {preds : List NodeId}
    (h : PredicateChain plan p preds e) (fuel : Nat) (hfuel : preds.length < fuel)
    (acc : List NodeId) :
    gather_predicate_nodes plan fuel p acc = .ok (some (acc ++ preds, e)) := by
  induction h generalizing fuel acc with
  | @last p e n ne hp hn hl he hne =>
    obtain ⟨f, rfl⟩ : ∃ f, fuel = f + 2 := ⟨fuel - 2, by simp at hfuel; omega⟩
    simp only [gather_predicate_nodes, LQP.deref, hp, hn, hl, he, if_true]
    simp [hne]
  | @cons p q e n nq rest hp hn hl hq hnq hout _ ih =>
    obtain ⟨f, rfl⟩ : ∃ f, fuel = f + 1 := ⟨fuel - 1, by simp at hfuel; omega⟩
    have hout' : ¬ (nq.type = .Predicate ∧ nq.output_count > 1) := by
      rintro ⟨_, h⟩; omega
    simp only [gather_predicate_nodes, LQP.deref, hp, hn, hl, hq, if_true, if_neg hout']
    rw [ih f (by simp at hfuel; omega)]
    simp

theorem apply_to_chain (sm : StorageManager) {plan : LQP} {p e st : NodeId}
    {preds : List NodeId} {stored : LQPNode} (h : PredicateChain plan p preds e)
    (hend : ChainEnd plan e st stored) (fuel : Nat) (hfuel : preds.length ≤ fuel) :
    apply_to sm (fuel + 1) plan p = prune_stored_table sm plan preds st stored := by
  obtain ⟨n, hp, hn⟩ := h.head_node
  obtain ⟨hst, hty, hcase⟩ := hend
  have hg := gather_predicate_nodes_chain h (fuel + 1) (by omega) []
  simp only [List.nil_append] at hg
  have hskip : skip_validate plan e = .ok st := by
    rcases hcase with rfl | ⟨ne, he, hne, hl⟩
    · simp [skip_validate, LQP.deref, hst, hty]
    · simp [skip_validate, LQP.deref, he, hne, hl]
  simp only [apply_to, LQP.deref, hp, hn, hg, hskip, hst, hty]
  simp

theorem deref_eq_ok {plan : LQP} {id : NodeId} {n : LQPNode} :
    plan.deref id = .ok n ↔ plan[id]? = some n := by
  unfold LQP.deref
  cases h : plan[id]? <;> simp

theorem union_exclusions_spec (plan : LQP) (statistics : List (Option ChunkStatistics2))
    (preds : List NodeId) (acc U : List ChunkID)
    (h : union_exclusions plan statistics preds acc = .ok U) (hs : acc.Sorted (· < ·)) :
    U.Sorted (· < ·) ∧ ∀ c, c ∈ U ↔ c ∈ acc ∨ InSomeExclusion plan statistics preds c := by
  induction preds generalizing acc with
  | nil =>
    simp only [union_exclusions, Except.ok.injEq] at h
    subst h
    exact ⟨hs, fun c => by simp [InSomeExclusion]⟩
  | cons p rest ih =>
    simp only [union_exclusions] at h
    split at h
    · cases h
    · rename_i n hn
      split at h
      · cases h
      · rename_i E hE
        obtain ⟨hsorted, hmem⟩ := ih _ h (set_insert_range_sorted E acc hs)
        refine ⟨hsorted, fun c => ?_⟩
        rw [hmem c, mem_set_insert_range]
        constructor
        · rintro ((hc | hc) | ⟨id, hid, n', E', h1, h2, h3⟩)
          · exact Or.inl hc
          · exact Or.inr ⟨p, List.mem_cons_self _ _, n, E, deref_eq_ok.1 hn, hE, hc⟩
          · exact Or.inr ⟨id, List.mem_cons_of_mem _ hid, n', E', h1, h2, h3⟩
        · rintro (hc | ⟨id, hid, n', E', h1, h2, h3⟩)
          · exact Or.inl (Or.inl hc)
          · rcases List.mem_cons.1 hid with rfl | hid
            · rw [deref_eq_ok.1 hn] at h1
              cases h1
              rw [hE] at h2
              cases h2
              exact Or.inl (Or.inr h3)
            · exact Or.inr ⟨id, hid, n', E', h1, h2, h3⟩

theorem union_exclusions_ok (plan : LQP) (statistics : List (Option ChunkStatistics2))
    (preds : List NodeId) (acc : List ChunkID) (h : ExclusionsReturned plan statistics preds) :
    ∃ U, union_exclusions plan statistics preds acc = .ok U := by
  induction preds generalizing acc with
  | nil => exact ⟨acc, rfl⟩
  | cons p rest ih =>
    obtain ⟨n, E, hn, hE⟩ := h p (List.mem_cons_self _ _)
    simp only [union_exclusions, deref_eq_ok.2 hn, hE]
    exact ih _ (fun id hid => h id (List.mem_cons_of_mem _ hid))

theorem set_excluded_chunk_ids_get (plan : LQP) (id : NodeId) (n : LQPNode)
    (l : List ChunkID) (h : plan[id]? = some n) :
    (plan.set_excluded_chunk_ids id l)[id]? = some { n with excluded_chunk_ids := l } := by
  have hlt : id < plan.length := (List.getElem?_eq_some.1 h).1
  simp [LQP.set_excluded_chunk_ids, h, List.getElem?_set, hlt]

theorem set_excluded_chunk_ids_get_ne (plan : LQP) (id id' : NodeId) (l : List ChunkID)
    (h : id ≠ id') : (plan.set_excluded_chunk_ids id l)[id']? = plan[id']? := by
  unfold LQP.set_excluded_chunk_ids
  split
  · simp [List.getElem?_set, h]
  · rfl

theorem prune_stored_table_ok (sm : StorageManager) (plan : LQP) (preds : List NodeId)
    (st : NodeId) (stored : LQPNode) (table : Table)
    (statistics : List (Option ChunkStatistics2))
    (htable : sm.get_table stored.table_name = .ok table)
    (hstats : table_statistics_vector table = .ok statistics)
    (hret : ExclusionsReturned plan statistics preds) :
    ∃ U, union_exclusions plan statistics preds [] = .ok U ∧
      prune_stored_table sm plan preds st stored =
        ⟨plan.set_excluded_chunk_ids st (merge_exclusions stored.excluded_chunk_ids U),
          .ok false⟩ := by
  obtain ⟨U, hU⟩ := union_exclusions_ok plan statistics preds [] hret
  exact ⟨U, hU, by simp [prune_stored_table, htable, hstats, hU]⟩

/-- C3: for a predicate chain that ends, possibly past one validate node, in a stored-table
node without excluded chunks, `apply_to` returns false and stores a list that is strictly
ascending, free of duplicates, and holds exactly the chunk ids of the exclusion sets that
`_compute_exclude_list` returns for the predicate nodes of the chain. -/
theorem apply_to_stores_union_of_exclusions (sm : StorageManager) (plan : LQP)
    (p e st : NodeId) (preds : List NodeId) (stored : LQPNode) (fuel : Nat) (table : Table)
    (statistics : List (Option ChunkStatistics2))
    (hchain : PredicateChain plan p preds e) (hend : ChainEnd plan e st stored)
    (hfuel : preds.length ≤ fuel) (hempty : stored.excluded_chunk_ids = [])
    (htable : sm.get_table stored.table_name = .ok table)
    (hstats : table_statistics_vector table = .ok statistics)
    (hret : ExclusionsReturned plan statistics preds) :
    ∃ L stored', (apply_to sm (fuel + 1) plan p).result = .ok false ∧
      (apply_to sm (fuel + 1) plan p).plan[st]? = some stored' ∧
      stored'.excluded_chunk_ids = L ∧ L.Sorted (· < ·) ∧ L.Nodup ∧
      ∀ c, c ∈ L ↔ InSomeExclusion plan statistics preds c := by
  obtain ⟨U, hU, hprune⟩ := prune_stored_table_ok sm plan preds st stored table statistics
    htable hstats hret
  obtain ⟨hsorted, hmem⟩ := union_exclusions_spec plan statistics preds [] U hU List.sorted_nil
  rw [apply_to_chain sm hchain hend fuel hfuel, hprune]
  refine ⟨U, _, rfl, set_excluded_chunk_ids_get plan st stored _ hend.1, ?_, hsorted,
    hsorted.nodup, fun c => by simpa using hmem c⟩
  simp [merge_exclusions, hempty]

/-- C4: for a predicate chain that ends in a stored-table node carrying a non-empty, ascending
list of excluded chunks, `apply_to` returns false and stores the intersection of that list with
the set computed for the chain: a chunk id is stored exactly if it was in the prior list and is
in one of the exclusion sets of the chain; so every stored id was in the prior list. -/
theorem apply_to_intersects_with_prior_exclusions (sm : StorageManager) (plan : LQP)
    (p e st : NodeId) (preds : List NodeId) (stored : LQPNode) (fuel : Nat) (table : Table)
    (statistics : List (Option ChunkStatistics2))
    (hchain : PredicateChain plan p preds e) (hend : ChainEnd plan e st stored)
    (hfuel : preds.length ≤ fuel) (hprior : stored.excluded_chunk_ids ≠ [])
    (hsorted : stored.excluded_chunk_ids.Sorted (· ≤ ·))
    (htable : sm.get_table stored.table_name = .ok table)
    (hstats : table_statistics_vector table = .ok statistics)
    (hret : ExclusionsReturned plan statistics preds) :
    ∃ L stored', (apply_to sm (fuel + 1) plan p).result = .ok false ∧
      (apply_to sm (fuel + 1) plan p).plan[st]? = some stored' ∧
      stored'.excluded_chunk_ids = L ∧
      (∀ c, c ∈ L ↔ c ∈ stored.excluded_chunk_ids ∧ InSomeExclusion plan statistics preds c) ∧
      (∀ c ∈ L, c ∈ stored.excluded_chunk_ids) ∧ L.Sorted (· ≤ ·) := by
  obtain ⟨U, hU, hprune⟩ := prune_stored_table_ok sm plan preds st stored table statistics
    htable hstats hret
  obtain ⟨hUsorted, hmem⟩ := union_exclusions_spec plan statistics preds [] U hU List.sorted_nil
  have hmerge : merge_exclusions stored.excluded_chunk_ids U =
      set_intersection stored.excluded_chunk_ids U := by
    cases hl : stored.excluded_chunk_ids with
    | nil => exact absurd hl hprior
    | cons a l => simp [merge_exclusions]
  rw [apply_to_chain sm hchain hend fuel hfuel, hprune, hmerge]
  refine ⟨_, _, rfl, set_excluded_chunk_ids_get plan st stored _ hend.1, rfl, ?_, ?_,
    set_intersection_sorted _ _ hsorted⟩
  · intro c
    rw [mem_set_intersection c _ _ hsorted (hUsorted.imp (fun h => le_of_lt h)), hmem c]
    simp
  · intro c hc
    exact (set_intersection_subset c _ _ hc).1

theorem collect_statistics_get (chunk_statistics : List (Option ChunkStatistics2))
    (ids : List ChunkID) (statistics : List (Option ChunkStatistics2))
    (h : collect_statistics chunk_statistics ids = .ok statistics) (i : Nat)
    (x : Option ChunkStatistics2) (hx : statistics[i]? = some x) :
    ∃ j, ids[i]? = some j ∧ chunk_statistics[j]? = some x := by
  induction ids generalizing statistics i with
  | nil =>
    simp only [collect_statistics, Except.ok.injEq] at h
    subst h; simp at hx
  | cons id rest ih =>
    simp only [collect_statistics] at h
    split at h
    · cases h
    · rename_i entry hentry
      split at h
      · cases h
      · rename_i tail htail
        simp only [Except.ok.injEq] at h
        subst h
        cases i with
        | zero =>
          simp only [List.getElem?_cons_zero, Option.some.injEq] at hx
          subst hx
          exact ⟨id, by simp, hentry⟩
        | succ i =>
          simp only [List.getElem?_cons_succ] at hx
          obtain ⟨j, hj, hjx⟩ := ih tail htail i hx
          exact ⟨j, by simpa using hj, hjx⟩

theorem table_statistics_vector_get (table : Table)
    (statistics : List (Option ChunkStatistics2))
    (h : table_statistics_vector table = .ok statistics) (c : ChunkID)
    (x : Option ChunkStatistics2) (hx : statistics[c]? = some x) :
    table.table_statistics2.chunk_statistics[c]? = some x := by
  obtain ⟨j, hj, hjx⟩ := collect_statistics_get _ _ _ h c x hx
  rw [List.getElem?_range] at hj
  · cases hj; exact hjx
  · by_contra hge
    rw [List.getElem?_eq_none (by simpa using hge)] at hj
    cases hj

theorem Excludes.of_vector {table : Table} {statistics : List (Option ChunkStatistics2)}
    (h : table_statistics_vector table = .ok statistics) {op : OperatorScanPredicate}
    {c : ChunkID} (hex : Excludes statistics op c) :
    Excludes table.table_statistics2.chunk_statistics op c := by
  obtain ⟨v, v2, cs, seg, h1, h2, h3, h4, h5⟩ := hex
  exact ⟨v, v2, cs, seg, h1, h2, table_statistics_vector_get table statistics h c _ h3, h4, h5⟩

/-- C2: for a predicate chain that ends, possibly past one validate node, in a stored-table
node without excluded chunks, and statistics for which `does_not_contain` is sound on every
chunk: no chunk whose id `apply_to` leaves in the excluded list of the stored-table node holds a
row that satisfies all predicates of the chain; and `apply_to` returns false whenever the table,
its statistics vector and the exclusion sets of the predicates are obtained without failure. -/
theorem apply_to_excludes_only_empty_chunks (sm : StorageManager) (plan : LQP)
    (p e st : NodeId) (preds : List NodeId) (stored : LQPNode) (fuel : Nat)
    (hchain : PredicateChain plan p preds e) (hend : ChainEnd plan e st stored)
    (hfuel : preds.length ≤ fuel) (hempty : stored.excluded_chunk_ids = [])
    (hsound : ∀ table, sm.get_table stored.table_name = .ok table →
      ∀ id ∈ preds, ∀ n, plan[id]? = some n → StatisticsSound table n) :
    (∀ stored', (apply_to sm (fuel + 1) plan p).plan[st]? = some stored' →
      ∀ c ∈ stored'.excluded_chunk_ids, ∀ table, sm.get_table stored.table_name = .ok table →
      ∀ chunk, table.chunks[c]? = some chunk → ∀ row ∈ chunk,
      ¬ ∀ id ∈ preds, ∀ n, plan[id]? = some n → n.predicate.holds row = true) ∧
    (∀ table statistics, sm.get_table stored.table_name = .ok table →
      table_statistics_vector table = .ok statistics →
      ExclusionsReturned plan statistics preds →
      (apply_to sm (fuel + 1) plan p).result = .ok false) := by
  rw [apply_to_chain sm hchain hend fuel hfuel]
  constructor
  · intro stored' hstored' c hc table htable chunk hchunk row hrow hall
    have hunchanged : plan[st]? = some stored' → False := by
      intro h
      rw [hend.1] at h
      cases h
      rw [hempty] at hc
      simp at hc
    unfold prune_stored_table at hstored'
    rw [htable] at hstored'
    simp only at hstored'
    split at hstored'
    · exact hunchanged hstored'
    · rename_i statistics hstats
      split at hstored'
      · exact hunchanged hstored'
      · rename_i U hU
        simp only at hstored'
        rw [set_excluded_chunk_ids_get plan st stored _ hend.1] at hstored'
        cases hstored'
        simp only [merge_exclusions, hempty, List.isEmpty_nil, Bool.not_true] at hc
        obtain ⟨_, hmem⟩ := union_exclusions_spec plan statistics preds [] U hU List.sorted_nil
        rcases (hmem c).1 hc with h | ⟨id, hid, n, E, hn, hE, hcE⟩
        · simp at h
        · obtain ⟨ops, hops, op, hop, hex⟩ := _compute_exclude_list_mem statistics n E hE c hcE
          have := hsound table htable id hid n hn ops hops op hop c (hex.of_vector hstats)
            chunk hchunk row hrow
          rw [hall id hid n hn] at this
          cases this
  · intro table statistics htable hstats hret
    obtain ⟨U, _, hprune⟩ := prune_stored_table_ok sm plan preds st stored table statistics
      htable hstats hret
    rw [hprune]

theorem range_statistics_sound (lo hi x literal : Int) (condition : PredicateCondition)
    (h : (range_statistics lo hi).does_not_contain condition (.int32 literal) none = .ok true)
    (hlo : lo ≤ x) (hhi : x ≤ hi) :
    compare_holds 0 condition literal [.int32 x] = false := by
  cases condition <;> simp [range_statistics, compare_holds] at h ⊢ <;> omega

theorem statisticsSound_S4 (input : NodeId) (outputs : List NodeId)
    (condition : PredicateCondition) (literal : Int) :
    StatisticsSound table_S4 (predicate_node input outputs
      (column_vs_literal 0 condition literal)) := by
  intro ops hops op hop c hex chunk hchunk row hrow
  simp only [predicate_node, column_vs_literal, Option.some.injEq] at hops
  subst hops
  simp only [List.mem_singleton] at hop
  subst hop
  obtain ⟨v, v2, cs, seg, hv, hv2, hcs, hseg, hdnc⟩ := hex
  simp only [AllParameterVariant.variant.injEq] at hv
  subst hv
  simp only [get_value2, Except.ok.injEq] at hv2
  subst hv2
  simp only [predicate_node, column_vs_literal]
  match c with
  | 0 =>
    simp only [table_S4, statistics_S4, range_chunk, List.getElem?_cons_zero,
      Option.some.injEq] at hcs hchunk
    subst hcs hchunk
    simp only [List.getElem?_cons_zero, Option.some.injEq] at hseg
    subst hseg
    simp only [chunk_of, List.map_cons, List.map_nil, List.mem_cons, List.mem_singleton,
      List.not_mem_nil, or_false] at hrow
    rcases hrow with rfl | rfl | rfl <;>
      exact range_statistics_sound _ _ _ _ _ hdnc (by decide) (by decide)
  | 1 =>
    simp only [table_S4, statistics_S4, range_chunk, List.getElem?_cons_succ,
      List.getElem?_cons_zero, Option.some.injEq] at hcs hchunk
    subst hcs hchunk
    simp only [List.getElem?_cons_zero, Option.some.injEq] at hseg
    subst hseg
    simp only [chunk_of, List.map_cons, List.map_nil, List.mem_cons, List.mem_singleton,
      List.not_mem_nil, or_false] at hrow
    rcases hrow with rfl | rfl <;>
      exact range_statistics_sound _ _ _ _ _ hdnc (by decide) (by decide)
  | 2 =>
    simp only [table_S4, statistics_S4, range_chunk, List.getElem?_cons_succ,
      List.getElem?_cons_zero, Option.some.injEq] at hcs hchunk
    subst hcs hchunk
    simp only [List.getElem?_cons_zero, Option.some.injEq] at hseg
    subst hseg
    simp only [chunk_of, List.map_cons, List.map_nil, List.mem_cons, List.mem_singleton,
      List.not_mem_nil, or_false] at hrow
    rcases hrow with rfl | rfl | rfl <;>
      exact range_statistics_sound _ _ _ _ _ hdnc (by decide) (by decide)
  | c + 3 =>
    simp [table_S4, statistics_S4] at hcs

theorem chain_two_predicates : PredicateChain plan_two_predicates 2 [2, 1] 0 :=
  .cons (n := predicate_node 1 [] (column_vs_literal 0 .LessThan 5))
    (m := predicate_node 0 [2] (column_vs_literal 0 .GreaterThan 25)) rfl rfl rfl rfl rfl
    (by decide)
    (.last (n := predicate_node 0 [2] (column_vs_literal 0 .GreaterThan 25))
      (m := stored_table_node [1] []) rfl rfl rfl rfl (by decide))

theorem chain_one_predicate (plan : LQP) (excluded : List ChunkID)
    (h : plan = [stored_table_node [1] excluded,
      predicate_node 0 [] (column_vs_literal 0 .GreaterThan 25)]) :
    PredicateChain plan 1 [1] 0 := by
  subst h
  exact .last (n := predicate_node 0 [] (column_vs_literal 0 .GreaterThan 25))
    (m := stored_table_node [1] excluded) rfl rfl rfl rfl (by simp [stored_table_node])

theorem exclusionsReturned_two_predicates :
    ExclusionsReturned plan_two_predicates statistics_S4 [2, 1] := by
  intro id hid
  simp only [List.mem_cons, List.mem_singleton, List.not_mem_nil, or_false] at hid
  rcases hid with rfl | rfl
  · exact ⟨predicate_node 1 [] (column_vs_literal 0 .LessThan 5), [1, 2], rfl, rfl⟩
  · exact ⟨predicate_node 0 [2] (column_vs_literal 0 .GreaterThan 25), [0, 1], rfl, rfl⟩

/-- On the table of S4 and the chain `col_a < 5 -> col_a > 25 -> StoredTable`, the chunks left in
the excluded list hold no row that satisfies both predicates. -/
theorem apply_to_excludes_only_empty_chunks_witness :
    (∀ stored', (apply_to storage_S4 3 plan_two_predicates 2).plan[0]? = some stored' →
      ∀ c ∈ stored'.excluded_chunk_ids, ∀ table,
      storage_S4.get_table (stored_table_node [1] []).table_name = .ok table →
      ∀ chunk, table.chunks[c]? = some chunk → ∀ row ∈ chunk,
      ¬ ∀ id ∈ [2, 1], ∀ n, plan_two_predicates[id]? = some n →
        n.predicate.holds row = true) ∧
    (∀ table statistics,
      storage_S4.get_table (stored_table_node [1] []).table_name = .ok table →
      table_statistics_vector table = .ok statistics →
      ExclusionsReturned plan_two_predicates statistics [2, 1] →
      (apply_to storage_S4 3 plan_two_predicates 2).result = .ok false) :=
  apply_to_excludes_only_empty_chunks storage_S4 plan_two_predicates 2 0 0 [2, 1]
    (stored_table_node [1] []) 2 chain_two_predicates ⟨rfl, rfl, Or.inl rfl⟩ (by decide) rfl
    (by
      intro table htable id hid n hn
      have ht : table = table_S4 := by
        simp [StorageManager.get_table, storage_S4, stored_table_node] at htable
        exact htable.symm
      subst ht
      simp only [List.mem_cons, List.mem_singleton, List.not_mem_nil, or_false] at hid
      rcases hid with rfl | rfl
      · simp only [plan_two_predicates, List.getElem?_cons_succ, List.getElem?_cons_zero,
          Option.some.injEq] at hn
        subst hn
        exact statisticsSound_S4 _ _ _ _
      · simp only [plan_two_predicates, List.getElem?_cons_succ, List.getElem?_cons_zero,
          Option.some.injEq] at hn
        subst hn
        exact statisticsSound_S4 _ _ _ _)

/-- Scenario S4: `col_a > 25` stores the chunks 0 and 1; with `col_a < 5` on the same chain the
chunks 0, 1 and 2 are stored. -/
theorem apply_to_stores_union_of_exclusions_witness :
    (∃ L stored', (apply_to storage_S4 3 plan_two_predicates 2).result = .ok false ∧
      (apply_to storage_S4 3 plan_two_predicates 2).plan[0]? = some stored' ∧
      stored'.excluded_chunk_ids = L ∧ L.Sorted (· < ·) ∧ L.Nodup ∧
      ∀ c, c ∈ L ↔ InSomeExclusion plan_two_predicates statistics_S4 [2, 1] c) ∧
    (apply_to storage_S4 2 plan_one_predicate 1).plan.map (fun n => n.excluded_chunk_ids) =
      [[0, 1], []] ∧
    (apply_to storage_S4 3 plan_two_predicates 2).plan.map (fun n => n.excluded_chunk_ids) =
      [[0, 1, 2], [], []] :=
  ⟨apply_to_stores_union_of_exclusions storage_S4 plan_two_predicates 2 0 0 [2, 1]
    (stored_table_node [1] []) 2 table_S4 statistics_S4 chain_two_predicates
    ⟨rfl, rfl, Or.inl rfl⟩ (by decide) rfl rfl rfl exclusionsReturned_two_predicates,
    rfl, rfl⟩

/-- With the chunks 1 and 2 excluded before, the predicate `col_a > 25`, which excludes the chunks
0 and 1, leaves chunk 1 in the list. -/
theorem apply_to_intersects_with_prior_exclusions_witness :
    (∃ L stored', (apply_to storage_S4 2 plan_prior_exclusions 1).result = .ok false ∧
      (apply_to storage_S4 2 plan_prior_exclusions 1).plan[0]? = some stored' ∧
      stored'.excluded_chunk_ids = L ∧
      (∀ c, c ∈ L ↔ c ∈ (stored_table_node [1] [1, 2]).excluded_chunk_ids ∧
        InSomeExclusion plan_prior_exclusions statistics_S4 [1] c) ∧
      (∀ c ∈ L, c ∈ (stored_table_node [1] [1, 2]).excluded_chunk_ids) ∧ L.Sorted (· ≤ ·)) ∧
    (apply_to storage_S4 2 plan_prior_exclusions 1).plan.map (fun n => n.excluded_chunk_ids) =
      [[1], []] :=
  ⟨apply_to_intersects_with_prior_exclusions storage_S4 plan_prior_exclusions 1 0 0 [1]
    (stored_table_node [1] [1, 2]) 1 table_S4 statistics_S4
    (chain_one_predicate _ [1, 2] rfl) ⟨rfl, rfl, Or.inl rfl⟩ (by decide) (by decide)
    (by decide) rfl rfl
    (by
      intro id hid
      simp only [List.mem_singleton] at hid
      subst hid
      exact ⟨predicate_node 0 [] (column_vs_literal 0 .GreaterThan 25), [0, 1], rfl, rfl⟩),
    rfl⟩

theorem _apply_to_inputs_left_only (recurse : LQP → NodeId → Outcome) (plan : LQP)
    (node l : NodeId) (n : LQPNode) (hn : plan[node]? = some n) (hl : n.left_input = some l)
    (hr : n.right_input = none) : _apply_to_inputs recurse plan node = recurse plan l := by
  simp only [_apply_to_inputs, deref_eq_ok.2 hn, hl, hr]
  cases hres : (recurse plan l).result with
  | error e =>
    simp only
    rw [← hres]
  | ok b =>
    simp only [Bool.or_false]
    rw [← hres]

/-- C9, as stated, fails: in the plan `P1 -> P2 -> StoredTable` in which `P2` has two
consumers, `apply_to` on `P1` leaves the chunks 0 and 1 in the excluded list of the stored
table, not the empty list. -/
theorem apply_to_shared_predicate_still_prunes :
    (plan_shared_predicate[1]?).map (fun n => (n.type, n.output_count)) =
        some (.Predicate, 2) ∧
      (plan_shared_predicate[2]?).map (fun n => (n.type, n.left_input)) =
        some (.Predicate, some 1) ∧
      (plan_shared_predicate[0]?).map (fun n => n.excluded_chunk_ids) = some [] ∧
      (apply_to storage_S4 4 plan_shared_predicate 2).result = .ok false ∧
      ((apply_to storage_S4 4 plan_shared_predicate 2).plan[0]?).map
        (fun n => n.excluded_chunk_ids) = some [0, 1] ∧
      ([0, 1] : List ChunkID) ≠ [] := by
  refine ⟨rfl, rfl, rfl, rfl, rfl, ?_⟩
  decide

/-- C9, amended: when the input of a predicate node is a predicate node with more than one
consumer, `apply_to` on the upper node does nothing but recurse on the inputs of that node; the
recursion reaches the shared predicate node and prunes the stored table with the chain that
starts there, so that the upper predicate adds nothing to the stored list. -/
theorem apply_to_recurses_at_shared_predicate (sm : StorageManager) (plan : LQP)
    (p q : NodeId) (n nq : LQPNode) (fuel : Nat)
    (hp : plan[p]? = some n) (hn : n.type = .Predicate) (hl : n.left_input = some q)
    (hq : plan[q]? = some nq) (hnq : nq.type = .Predicate) (hshared : nq.output_count > 1) :
    apply_to sm (fuel + 1) plan p = _apply_to_inputs (apply_to sm fuel) plan p ∧
    (n.right_input = none → apply_to sm (fuel + 1) plan p = apply_to sm fuel plan q) ∧
    (n.right_input = none → ∀ e st stored preds, PredicateChain plan q preds e →
      ChainEnd plan e st stored → preds.length ≤ fuel →
      apply_to sm (fuel + 2) plan p = prune_stored_table sm plan preds st stored) := by
  have h1 : ∀ k, apply_to sm (k + 1) plan p = _apply_to_inputs (apply_to sm k) plan p := by
    intro k
    simp only [apply_to, deref_eq_ok.2 hp, hn, gather_predicate_nodes, hl, deref_eq_ok.2 hq,
      hnq, hshared]
    simp
  refine ⟨h1 fuel, ?_, ?_⟩
  · intro hr
    rw [h1 fuel]
    exact _apply_to_inputs_left_only _ plan p q n hp hl hr
  · intro hr e st stored preds hchain hend hfuel
    rw [h1 (fuel + 1), _apply_to_inputs_left_only _ plan p q n hp hl hr]
    exact apply_to_chain sm hchain hend fuel hfuel

/-- In `P1 -> P2 -> StoredTable` with `P2` shared, the rule applied to `P1` is the rule applied to
`P2`; `P2` excludes the chunks 0 and 1, `P1` would exclude the chunks 1 and 2. -/
theorem apply_to_recurses_at_shared_predicate_witness :
    (apply_to storage_S4 4 plan_shared_predicate 2 =
        _apply_to_inputs (apply_to storage_S4 3) plan_shared_predicate 2 ∧
      ((predicate_node 1 [] (column_vs_literal 0 .LessThan 5)).right_input = none →
        apply_to storage_S4 4 plan_shared_predicate 2 =
          apply_to storage_S4 3 plan_shared_predicate 1) ∧
      ((predicate_node 1 [] (column_vs_literal 0 .LessThan 5)).right_input = none →
        ∀ e st stored preds, PredicateChain plan_shared_predicate 1 preds e →
        ChainEnd plan_shared_predicate e st stored → preds.length ≤ 3 →
        apply_to storage_S4 5 plan_shared_predicate 2 =
          prune_stored_table storage_S4 plan_shared_predicate preds st stored)) ∧
    _compute_exclude_list statistics_S4
        (predicate_node 0 [2, 3] (column_vs_literal 0 .GreaterThan 25)) = .ok [0, 1] ∧
    _compute_exclude_list statistics_S4
        (predicate_node 1 [] (column_vs_literal 0 .LessThan 5)) = .ok [1, 2] :=
  ⟨apply_to_recurses_at_shared_predicate storage_S4 plan_shared_predicate 2 1
    (predicate_node 1 [] (column_vs_literal 0 .LessThan 5))
    (predicate_node 0 [2, 3] (column_vs_literal 0 .GreaterThan 25)) 3 rfl rfl rfl rfl rfl
    (by decide), rfl, rfl⟩

/-- C1: for the union of two predicate branches that share one stored-table node, with sound
statistics, `apply_to` stores the chunks 0 and 1 that the second branch (`col_a > 25`) proves
empty, although the first branch (`col_a >= 0`) excluded nothing; the scan of the first branch
that skips the stored chunks loses the rows of the chunks 0 and 1. -/
theorem apply_to_shared_stored_table_unsound :
    StatisticsSound table_S4 (predicate_node 0 [3] (column_vs_literal 0 .GreaterThanEquals 0)) ∧
      StatisticsSound table_S4 (predicate_node 0 [3] (column_vs_literal 0 .GreaterThan 25)) ∧
      (apply_to storage_S4 4 plan_union_shared_table 3).result = .ok false ∧
      (apply_to storage_S4 4 plan_union_shared_table 3).plan.map
        (fun n => n.excluded_chunk_ids) = [[0, 1], [], [], []] ∧
      _compute_exclude_list statistics_S4
        (predicate_node 0 [3] (column_vs_literal 0 .GreaterThanEquals 0)) = .ok [] ∧
      scan table_S4 [0, 1] [column_vs_literal 0 .GreaterThanEquals 0] =
        [(2, 0), (2, 1), (2, 2)] ∧
      scan table_S4 [] [column_vs_literal 0 .GreaterThanEquals 0] =
        [(0, 0), (0, 1), (0, 2), (1, 0), (1, 1), (2, 0), (2, 1), (2, 2)] ∧
      scan table_S4 [0, 1] [column_vs_literal 0 .GreaterThanEquals 0] ≠
        scan table_S4 [] [column_vs_literal 0 .GreaterThanEquals 0] := by
  refine ⟨statisticsSound_S4 _ _ _ _, statisticsSound_S4 _ _ _ _, rfl, rfl, rfl, ?_, ?_, ?_⟩
  · decide
  · decide
  · decide

theorem SameStructure.trans {a b c : LQP} (h1 : SameStructure a b) (h2 : SameStructure b c) :
    SameStructure a c := by
  unfold SameStructure at *
  rw [h2, h1]

theorem SameStructure.length {plan plan' : LQP} (h : SameStructure plan plan') :
    plan'.length = plan.length := by
  have := congrArg List.length h
  simpa using this

theorem forget_exclusions_fields {n n' : LQPNode}
    (h : forget_exclusions n' = forget_exclusions n) :
    n'.type = n.type ∧ n'.left_input = n.left_input ∧ n'.right_input = n.right_input ∧
      n'.outputs = n.outputs ∧ n'.predicate = n.predicate ∧ n'.table_name = n.table_name ∧
      (n.type ≠ .StoredTable → n'.excluded_chunk_ids = n.excluded_chunk_ids) := by
  obtain ⟨t, l, r, o, p, tn, ex⟩ := n
  obtain ⟨t', l', r', o', p', tn', ex'⟩ := n'
  unfold forget_exclusions at h
  by_cases ht : t = .StoredTable <;> by_cases ht' : t' = .StoredTable <;>
    simp [ht, ht'] at h ⊢ <;> simp_all

theorem SameStructure.get {plan plan' : LQP} (h : SameStructure plan plan') (id : NodeId)
    (n : LQPNode) (hn : plan[id]? = some n) :
    ∃ n', plan'[id]? = some n' ∧ forget_exclusions n' = forget_exclusions n := by
  have := congrArg (fun l => l[id]?) h
  simp only [List.getElem?_map, hn, Option.map_some'] at this
  cases h' : plan'[id]? with
  | none => simp [h'] at this
  | some n' =>
    simp only [h', Option.map_some', Option.some.injEq] at this
    exact ⟨n', rfl, this⟩

theorem SameStructure.symm {plan plan' : LQP} (h : SameStructure plan plan') :
    SameStructure plan' plan := by
  unfold SameStructure at *
  exact h.symm

theorem set_excluded_chunk_ids_sameStructure (plan : LQP) (id : NodeId) (n : LQPNode)
    (l : List ChunkID) (hn : plan[id]? = some n) (ht : n.type = .StoredTable) :
    SameStructure plan (plan.set_excluded_chunk_ids id l) := by
  unfold SameStructure
  apply List.ext_getElem?
  intro i
  simp only [List.getElem?_map]
  by_cases hi : id = i
  · subst hi
    rw [set_excluded_chunk_ids_get plan id n l hn, hn]
    simp [forget_exclusions, ht]
  · rw [set_excluded_chunk_ids_get_ne plan id i l hi]

theorem skip_validate_eq_ok {plan : LQP} {e st : NodeId} (h : skip_validate plan e = .ok st) :
    ∃ ne, plan[e]? = some ne ∧
      ((ne.type = .Validate ∧ ne.left_input = some st) ∨ (ne.type ≠ .Validate ∧ st = e)) := by
  unfold skip_validate at h
  split at h
  · cases h
  · rename_i ne hne
    refine ⟨ne, deref_eq_ok.1 hne, ?_⟩
    split_ifs at h with hv
    · split at h
      · cases h
      · rename_i next hnext
        cases h
        exact Or.inl ⟨hv, hnext⟩
    · cases h
      exact Or.inr ⟨hv, rfl⟩

theorem _compute_exclude_list_congr (statistics : List (Option ChunkStatistics2))
    {n n' : LQPNode} (h : n'.predicate = n.predicate) :
    _compute_exclude_list statistics n' = _compute_exclude_list statistics n := by
  unfold _compute_exclude_list
  rw [h]

theorem exclude_for_predicates_ok (statistics : List (Option ChunkStatistics2))
    (ops : List OperatorScanPredicate) (result : List ChunkID)
    (hall : ∀ op ∈ ops, is_variant op.value = true ∧ NoFailure statistics op) :
    ∃ r, exclude_for_predicates statistics ops result = .ok r := by
  induction ops generalizing result with
  | nil => exact ⟨result, rfl⟩
  | cons p rest ih =>
    have hrest : ∀ q ∈ rest, is_variant q.value = true ∧ NoFailure statistics q :=
      fun q hq => hall q (List.mem_cons_of_mem _ hq)
    obtain ⟨hpv, w2, hw2, hp⟩ := hall p (List.mem_cons_self _ _)
    simp only [exclude_for_predicates]
    cases hval : p.value with
    | variant w =>
      obtain ⟨r, hr⟩ := exclude_chunks_ok p.column_id p.predicate_condition w w2 statistics 0
        result (hp w hval)
      simp only [is_variant, boost_get, hw2, hr, Bool.not_true]
      exact ih r hrest
    | column c => simp [hval, is_variant] at hpv
    | parameter q => simp [hval, is_variant] at hpv

theorem exclude_for_predicates_mem_of_excludes (statistics : List (Option ChunkStatistics2))
    (ops : List OperatorScanPredicate) (result r : List ChunkID)
    (h : exclude_for_predicates statistics ops result = .ok r)
    (hvar : ∀ op ∈ ops, is_variant op.value = true) (c : ChunkID)
    (hc : c ∈ result ∨ ∃ op ∈ ops, Excludes statistics op c) : c ∈ r := by
  induction ops generalizing result with
  | nil =>
    simp only [exclude_for_predicates, Except.ok.injEq] at h
    subst h
    rcases hc with hc | ⟨op, hop, _⟩
    · exact hc
    · simp at hop
  | cons op rest ih =>
    have hopv := hvar op (List.mem_cons_self _ _)
    simp only [exclude_for_predicates] at h
    split at h
    · rename_i hnot
      simp [hopv] at hnot
    · split at h
      · cases h
      · rename_i value hvalue
        split at h
        · cases h
        · rename_i value2 hvalue2
          split at h
          · cases h
          · rename_i result' hresult'
            refine ih result' h (fun q hq => hvar q (List.mem_cons_of_mem _ hq)) ?_
            have hmem := exclude_chunks_mem _ _ _ _ _ _ _ _ hresult' c
            rcases hc with hc | ⟨op', hop', hex⟩
            · exact Or.inl (hmem.2 (Or.inl hc))
            · rcases List.mem_cons.1 hop' with rfl | hop'
              · obtain ⟨v, v2, cs, seg, hv, hv2, hcs, hseg, hdnc⟩ := hex
                have hvv : value = v := by
                  rw [hv] at hvalue
                  simp only [boost_get, Except.ok.injEq] at hvalue
                  exact hvalue.symm
                have hvv2 : value2 = v2 := by
                  rw [hv2] at hvalue2
                  simp only [Except.ok.injEq] at hvalue2
                  exact hvalue2.symm
                subst hvv hvv2
                exact Or.inl (hmem.2 (Or.inr ⟨c, cs, seg, by simp, hcs, hseg, hdnc⟩))
              · exact Or.inr ⟨op', hop', hex⟩

/-- C11, as stated, fails: the operator predicates of `a BETWEEN 5 AND b` and of `col_a = 'x'`
carry a variant value each, yet `_compute_exclude_list` returns no set for these nodes: it fails
on the second value that is a column, and on the type mismatch that `does_not_contain`
reports. -/
theorem compute_exclude_list_variant_values_may_fail :
    (∀ op ∈ [(⟨0, .Between, .variant (.int32 5), some (.column 1)⟩ : OperatorScanPredicate)],
        is_variant op.value = true) ∧
      node_between_value_and_column.predicate.from_expression =
        some [⟨0, .Between, .variant (.int32 5), some (.column 1)⟩] ∧
      (¬ ∃ r, _compute_exclude_list statistics_S4 node_between_value_and_column = .ok r) ∧
      (∀ op ∈ [(⟨0, .Equals, .variant (.string "x"), none⟩ : OperatorScanPredicate)],
        is_variant op.value = true) ∧
      node_string_literal.predicate.from_expression =
        some [⟨0, .Equals, .variant (.string "x"), none⟩] ∧
      (¬ ∃ r, _compute_exclude_list statistics_S4 node_string_literal = .ok r) := by
  refine ⟨by simp [is_variant], rfl, ?_, by simp [is_variant], rfl, ?_⟩
  · rintro ⟨r, hr⟩
    cases hr
  · rintro ⟨r, hr⟩
    cases hr

/-- C11, amended: for a predicate node all of whose operator predicates carry a variant value
and are processed without error (a second value, if present, is a variant too, the chunk
statistics have an entry for the column, `does_not_contain` reports no error),
`_compute_exclude_list` returns, in ascending order, exactly the chunk ids below the size of
the statistics vector for which the chunk statistics and the segment statistics of the column
of some operator predicate are present and `does_not_contain` is true for that operator
predicate; when `from_expression` yields nothing it returns the empty set. -/
theorem compute_exclude_list_exact (statistics : List (Option ChunkStatistics2))
    (node : LQPNode) :
    (node.predicate.from_expression = none → _compute_exclude_list statistics node = .ok []) ∧
    (∀ ops, node.predicate.from_expression = some ops →
      (∀ op ∈ ops, is_variant op.value = true ∧ NoFailure statistics op) →
      ∃ r, _compute_exclude_list statistics node = .ok r ∧ r.Sorted (· < ·) ∧
        (∀ c, c ∈ r ↔ ∃ op ∈ ops, Excludes statistics op c) ∧
        ∀ c ∈ r, c < statistics.length) := by
  constructor
  · intro hnone
    simp [_compute_exclude_list, hnone]
  · intro ops hops hall
    obtain ⟨r, hr⟩ := exclude_for_predicates_ok statistics ops [] hall
    have hres : _compute_exclude_list statistics node = .ok r := by
      simp only [_compute_exclude_list, hops]
      exact hr
    have hiff : ∀ c, c ∈ r ↔ ∃ op ∈ ops, Excludes statistics op c := by
      intro c
      constructor
      · intro hc
        rcases exclude_for_predicates_mem statistics ops [] r hr c hc with h | h
        · simp at h
        · exact h
      · intro hc
        exact exclude_for_predicates_mem_of_excludes statistics ops [] r hr
          (fun op hop => (hall op hop).1) c (Or.inr hc)
    refine ⟨r, hres, _compute_exclude_list_sorted statistics node r hres, hiff, ?_⟩
    intro c hc
    obtain ⟨op, _, v, v2, cs, seg, _, _, hcs, _, _⟩ := (hiff c).1 hc
    exact (List.getElem?_eq_some.1 hcs).1

/-- On the statistics of S4 the node `col_a < 5` returns the chunks 1 and 2, and a node whose
expression `from_expression` rejects returns nothing. -/
theorem compute_exclude_list_exact_witness :
    (no_expression.from_expression = none →
      _compute_exclude_list statistics_S4 (stored_table_node [] []) = .ok []) ∧
    (∃ r, _compute_exclude_list statistics_S4
        (predicate_node 0 [] (column_vs_literal 0 .LessThan 5)) = .ok r ∧ r.Sorted (· < ·) ∧
      (∀ c, c ∈ r ↔ ∃ op ∈ [(⟨0, .LessThan, .variant (.int32 5), none⟩ : OperatorScanPredicate)],
        Excludes statistics_S4 op c) ∧
      ∀ c ∈ r, c < statistics_S4.length) ∧
    _compute_exclude_list statistics_S4
        (predicate_node 0 [] (column_vs_literal 0 .LessThan 5)) = .ok [1, 2] :=
  ⟨(compute_exclude_list_exact statistics_S4 (stored_table_node [] [])).1,
    (compute_exclude_list_exact statistics_S4
      (predicate_node 0 [] (column_vs_literal 0 .LessThan 5))).2
      [⟨0, .LessThan, .variant (.int32 5), none⟩] rfl
      (by
        intro op hop
        simp only [List.mem_singleton] at hop
        subst hop
        exact ⟨rfl, noFailure_less_than_S4⟩),
    rfl⟩

/-- C12: on each of Equals, NotEquals, LessThan, LessThanEquals, GreaterThan,
GreaterThanEquals, Like, NotLike, IsNull and IsNotNull, `inverse_predicate_condition` returns
a condition, returns a condition on that result too, and the second result is the condition
started from. -/
theorem inverse_predicate_condition_involutive (op : PredicateCondition)
    (hop : op ∈ [PredicateCondition.Equals, .NotEquals, .LessThan, .LessThanEquals, .GreaterThan,
      .GreaterThanEquals, .Like, .NotLike, .IsNull, .IsNotNull]) :
    ∃ r, inverse_predicate_condition op = .ok r ∧ inverse_predicate_condition r = .ok op := by
  cases op <;> simp at hop <;> exact ⟨_, rfl, rfl⟩

/-- The inverse of `Like` is `NotLike`, whose inverse is `Like` again. -/
theorem inverse_predicate_condition_involutive_witness :
    ∃ r, inverse_predicate_condition .Like = .ok r ∧
      inverse_predicate_condition r = .ok .Like :=
  inverse_predicate_condition_involutive .Like (by decide)

/-- C13: when `flip_predicate_condition` returns a condition for `op`, it returns a condition
for that result as well, and this second result is `op`. -/
theorem flip_predicate_condition_involutive (op r : PredicateCondition)
    (h : flip_predicate_condition op = .ok r) : flip_predicate_condition r = .ok op := by
  cases op <;> cases h <;> rfl

/-- Flipping `LessThanEquals` gives `GreaterThanEquals`, and flipping that gives
`LessThanEquals`. -/
theorem flip_predicate_condition_involutive_witness :
    flip_predicate_condition .LessThanEquals = .ok .GreaterThanEquals ∧
      flip_predicate_condition .GreaterThanEquals = .ok .LessThanEquals :=
  ⟨rfl, flip_predicate_condition_involutive .LessThanEquals .GreaterThanEquals rfl⟩

/-- C14: `flip_predicate_condition` maps LessThan to GreaterThan and back, LessThanEquals to
GreaterThanEquals and back, Equals to Equals and NotEquals to NotEquals; and for each of these
six conditions and any two values `a`, `b` of a linearly ordered type, `a op b` holds exactly
when `b flip(op) a` holds. -/
theorem flip_predicate_condition_table {α : Type} [LinearOrder α] (a b : α) :
    flip_predicate_condition .LessThan = .ok .GreaterThan ∧
    flip_predicate_condition .GreaterThan = .ok .LessThan ∧
    flip_predicate_condition .LessThanEquals = .ok .GreaterThanEquals ∧
    flip_predicate_condition .GreaterThanEquals = .ok .LessThanEquals ∧
    flip_predicate_condition .Equals = .ok .Equals ∧
    flip_predicate_condition .NotEquals = .ok .NotEquals ∧
    ∀ op ∈ [PredicateCondition.Equals, .NotEquals, .LessThan, .LessThanEquals, .GreaterThan,
        .GreaterThanEquals],
      ∃ flipped, flip_predicate_condition op = .ok flipped ∧
        (condition_holds op a b = true ↔ condition_holds flipped b a = true) := by
  refine ⟨rfl, rfl, rfl, rfl, rfl, rfl, ?_⟩
  intro op hop
  cases op <;> simp at hop <;> refine ⟨_, rfl, ?_⟩ <;>
    simp only [condition_holds, decide_eq_true_eq, gt_iff_lt, ge_iff_le]
  · exact eq_comm
  · exact ne_comm

/-- On the integers `3 < 7` holds and so does `7 > 3`, the flipped comparison with the sides
exchanged. -/
theorem flip_predicate_condition_table_witness :
    ∃ flipped, flip_predicate_condition .LessThan = .ok flipped ∧
      (condition_holds .LessThan (3 : Int) 7 = true ↔ condition_holds flipped (7 : Int) 3 = true) ∧
      condition_holds .LessThan (3 : Int) 7 = true := by
  obtain ⟨flipped, hflip, hiff⟩ :=
    (flip_predicate_condition_table (3 : Int) 7).2.2.2.2.2.2 .LessThan (by decide)
  exact ⟨flipped, hflip, hiff, by decide⟩

theorem collect_positions_sequential {T : Type} (D : List T) (N : List Bool) (n : Nat)
    (hD : D.length = n) (hN : N.length = n) (hn : n ≤ chunk_offset_range) :
    ∀ (m k fuel : Nat), k + m = n → m < fuel →
      ∃ ps, collect_positions LZ4Iterable.Iterator.equal LZ4Iterable.Iterator.increment
          LZ4Iterable.Iterator.dereference fuel
          (⟨k % chunk_offset_range, ⟨D, k⟩, ⟨N, k⟩⟩ : LZ4Iterable.Iterator T)
          ⟨0, ⟨D, n⟩, ⟨N, n⟩⟩ = .ok ps ∧
        ps.length = m ∧
        ∀ j v b, D[k + j]? = some v → N[k + j]? = some b → ps[j]? = some ⟨v, b, k + j⟩ := by
  intro m
  induction m with
  | zero =>
    intro k fuel hk hfuel
    obtain ⟨f, rfl⟩ : ∃ f, fuel = f + 1 := ⟨fuel - 1, by omega⟩
    have hkn : k = n := by omega
    subst hkn
    refine ⟨[], ?_, rfl, ?_⟩
    · simp [collect_positions, LZ4Iterable.Iterator.equal, VectorIterator.equal]
    · intro j v b hv
      have := (List.getElem?_eq_some.1 hv).1
      omega
  | succ m ih =>
    intro k fuel hk hfuel
    obtain ⟨f, rfl⟩ : ∃ f, fuel = f + 1 := ⟨fuel - 1, by omega⟩
    have hkD : k < D.length := by omega
    have hkN : k < N.length := by omega
    obtain ⟨ps, hps, hlen, hget⟩ := ih (k + 1) f (by omega) (by omega)
    have hmod : (k % chunk_offset_range + 1) % chunk_offset_range =
        (k + 1) % chunk_offset_range := by
      simp only [chunk_offset_range]
      omega
    have hne : (k == n) = false := by
      simp only [beq_eq_false_iff_ne, ne_eq]
      omega
    refine ⟨⟨D[k], N[k], k⟩ :: ps, ?_, by simp [hlen], ?_⟩
    · simp only [collect_positions, LZ4Iterable.Iterator.equal, VectorIterator.equal, hne,
        LZ4Iterable.Iterator.dereference, VectorIterator.dereference,
        List.getElem?_eq_getElem hkD, List.getElem?_eq_getElem hkN,
        LZ4Iterable.Iterator.increment, VectorIterator.increment, hmod, hps]
      have hk' : k % chunk_offset_range = k := by
        apply Nat.mod_eq_of_lt
        omega
      simp [hk']
    · intro j v b hv hb
      cases j with
      | zero =>
        simp only [Nat.add_zero, List.getElem?_eq_getElem hkD, Option.some.injEq] at hv
        simp only [Nat.add_zero, List.getElem?_eq_getElem hkN, Option.some.injEq] at hb
        simp [hv, hb]
      | succ j =>
        have := hget j v b (by rw [← hv]; congr 1; omega) (by rw [← hb]; congr 1; omega)
        simp only [List.getElem?_cons_succ, this, Option.some.injEq, SegmentPosition.mk.injEq,
          true_and]
        show (k + 1 + j : Nat) = k + (j + 1)
        omega

theorem pointAccessIterator_dereference_eq {T : Type} (D : List T) (N : List Bool)
    (P : List RowID) (k : Nat) (q : RowID) (hq : P[k]? = some q) :
    LZ4Iterable.PointAccessIterator.dereference
        (⟨⟨P, 0⟩, ⟨P, k⟩, D, N⟩ : LZ4Iterable.PointAccessIterator T) =
      match D[q.chunk_offset]? with
      | none => .error .undefined_behaviour
      | some value =>
        match N[q.chunk_offset]? with
        | none => .error .undefined_behaviour
        | some is_null => .ok ⟨value, is_null, k % chunk_offset_range⟩ := by
  have hk : (((k : Int) - (0 : Nat)) % (chunk_offset_range : Nat)).toNat =
      k % chunk_offset_range := by
    simp only [chunk_offset_range]
    omega
  simp only [LZ4Iterable.PointAccessIterator.dereference,
    LZ4Iterable.PointAccessIterator.chunk_offsets, VectorIterator.dereference, hq, hk]

theorem collect_positions_point_access {T : Type} (D : List T) (N : List Bool) (P : List RowID)
    (hlen : P.length ≤ chunk_offset_range) :
    ∀ (rest pre : List RowID) (fuel : Nat), P = pre ++ rest →
      (∀ q ∈ rest, q.chunk_offset < D.length ∧ q.chunk_offset < N.length) →
      rest.length < fuel →
      ∃ ps, collect_positions LZ4Iterable.PointAccessIterator.equal
          LZ4Iterable.PointAccessIterator.increment LZ4Iterable.PointAccessIterator.dereference
          fuel (⟨⟨P, 0⟩, ⟨P, pre.length⟩, D, N⟩ : LZ4Iterable.PointAccessIterator T)
          ⟨⟨P, 0⟩, ⟨P, P.length⟩, D, N⟩ = .ok ps ∧
        ps.length = rest.length ∧
        ∀ (j : Nat) (q : RowID) (v : T) (b : Bool), rest[j]? = some q →
          D[q.chunk_offset]? = some v →
          N[q.chunk_offset]? = some b → ps[j]? = some ⟨v, b, pre.length + j⟩ := by
  intro rest
  induction rest with
  | nil =>
    intro pre fuel hP _ hfuel
    obtain ⟨f, rfl⟩ : ∃ f, fuel = f + 1 := ⟨fuel - 1, by omega⟩
    simp only [List.append_nil] at hP
    subst hP
    refine ⟨[], ?_, rfl, ?_⟩
    · simp [collect_positions, LZ4Iterable.PointAccessIterator.equal, VectorIterator.equal]
    · intro j q v b hq
      simp at hq
  | cons q rest ih =>
    intro pre fuel hP hin hfuel
    obtain ⟨f, rfl⟩ : ∃ f, fuel = f + 1 := ⟨fuel - 1, by simp only [List.length_cons] at hfuel; omega⟩
    obtain ⟨hqD, hqN⟩ := hin q (List.mem_cons_self _ _)
    have hPlen : P.length = pre.length + (rest.length + 1) := by
      rw [hP]
      simp
    have hPq : P[pre.length]? = some q := by
      rw [hP, List.getElem?_append_right (le_refl _)]
      simp
    obtain ⟨ps, hps, hpslen, hget⟩ := ih (pre ++ [q]) f (by simp [hP])
      (fun r hr => hin r (List.mem_cons_of_mem _ hr))
      (by simp only [List.length_cons] at hfuel; omega)
    simp only [List.length_append, List.length_singleton] at hps hget
    have hne : (pre.length == P.length) = false := by
      simp only [beq_eq_false_iff_ne, ne_eq]
      omega
    have hmod : pre.length % chunk_offset_range = pre.length := by
      apply Nat.mod_eq_of_lt
      omega
    refine ⟨⟨D[q.chunk_offset], N[q.chunk_offset], pre.length⟩ :: ps, ?_, by simp [hpslen], ?_⟩
    · rw [collect_positions]
      simp only [LZ4Iterable.PointAccessIterator.equal, VectorIterator.equal, hne,
        pointAccessIterator_dereference_eq D N P pre.length q hPq,
        List.getElem?_eq_getElem hqD, List.getElem?_eq_getElem hqN,
        LZ4Iterable.PointAccessIterator.increment, VectorIterator.increment, hps, hmod]
      simp
    · intro j r v b hr hv hb
      cases j with
      | zero =>
        simp only [List.getElem?_cons_zero, Option.some.injEq] at hr
        subst hr
        simp only [List.getElem?_eq_getElem hqD, Option.some.injEq] at hv
        simp only [List.getElem?_eq_getElem hqN, Option.some.injEq] at hb
        simp [hv, hb]
      | succ j =>
        have := hget j r v b (by simpa using hr) hv hb
        simp only [List.getElem?_cons_succ, this, Option.some.injEq, SegmentPosition.mk.injEq,
          true_and]
        show (pre.length + 1 + j : Nat) = pre.length + (j + 1)
        omega

theorem collect_positions_point_access_out_of_range {T : Type} (D : List T) (N : List Bool)
    (P : List RowID) :
    ∀ (mid pre : List RowID) (fuel : Nat) (pos : RowID) (post : List RowID),
      P = pre ++ mid ++ pos :: post →
      (∀ q ∈ mid, q.chunk_offset < D.length ∧ q.chunk_offset < N.length) →
      (D.length ≤ pos.chunk_offset ∨ N.length ≤ pos.chunk_offset) →
      mid.length < fuel →
      collect_positions LZ4Iterable.PointAccessIterator.equal
          LZ4Iterable.PointAccessIterator.increment LZ4Iterable.PointAccessIterator.dereference
          fuel (⟨⟨P, 0⟩, ⟨P, pre.length⟩, D, N⟩ : LZ4Iterable.PointAccessIterator T)
          ⟨⟨P, 0⟩, ⟨P, P.length⟩, D, N⟩ = .error .undefined_behaviour := by
  intro mid
  induction mid with
  | nil =>
    intro pre fuel pos post hP _ hout hfuel
    obtain ⟨f, rfl⟩ : ∃ f, fuel = f + 1 := ⟨fuel - 1, by omega⟩
    simp only [List.append_nil] at hP
    have hPlen : P.length = pre.length + (post.length + 1) := by
      rw [hP]
      simp
    have hPq : P[pre.length]? = some pos := by
      rw [hP, List.getElem?_append_right (le_refl _)]
      simp
    have hne : (pre.length == P.length) = false := by
      simp only [beq_eq_false_iff_ne, ne_eq]
      omega
    rw [collect_positions]
    simp only [LZ4Iterable.PointAccessIterator.equal, VectorIterator.equal, hne,
      pointAccessIterator_dereference_eq D N P pre.length pos hPq]
    rcases hout with hout | hout
    · simp [List.getElem?_eq_none hout]
    · cases hD : D[pos.chunk_offset]? <;> simp [List.getElem?_eq_none hout]
  | cons q mid ih =>
    intro pre fuel pos post hP hin hout hfuel
    obtain ⟨f, rfl⟩ : ∃ f, fuel = f + 1 := ⟨fuel - 1, by simp only [List.length_cons] at hfuel; omega⟩
    obtain ⟨hqD, hqN⟩ := hin q (List.mem_cons_self _ _)
    have hPlen : P.length = pre.length + (mid.length + 1 + (post.length + 1)) := by
      rw [hP]
      simp
      omega
    have hPq : P[pre.length]? = some q := by
      rw [hP, List.append_assoc, List.getElem?_append_right (le_refl _)]
      simp
    have hrec := ih (pre ++ [q]) f pos post (by simp [hP])
      (fun r hr => hin r (List.mem_cons_of_mem _ hr)) hout
      (by simp only [List.length_cons] at hfuel; omega)
    simp only [List.length_append, List.length_singleton] at hrec
    have hne : (pre.length == P.length) = false := by
      simp only [beq_eq_false_iff_ne, ne_eq]
      omega
    rw [collect_positions]
    simp only [LZ4Iterable.PointAccessIterator.equal, VectorIterator.equal, hne,
      pointAccessIterator_dereference_eq D N P pre.length q hPq,
      List.getElem?_eq_getElem hqD, List.getElem?_eq_getElem hqN,
      LZ4Iterable.PointAccessIterator.increment, VectorIterator.increment, hrec]
    simp

theorem pointAccessIterator_dereference_ne_outOfRange {T : Type}
    (it : LZ4Iterable.PointAccessIterator T) :
    it.dereference ≠ .error .OutOfRange := by
  intro h
  simp only [LZ4Iterable.PointAccessIterator.dereference,
    LZ4Iterable.PointAccessIterator.chunk_offsets, VectorIterator.dereference] at h
  cases h1 : it._position_filter_it.vector[it._position_filter_it.position]? with
  | none =>
    rw [h1] at h
    cases h
  | some row_id =>
    rw [h1] at h
    simp only at h
    cases h2 : it._data[row_id.chunk_offset]? with
    | none =>
      rw [h2] at h
      cases h
    | some value =>
      rw [h2] at h
      simp only at h
      cases h3 : it._null_values[row_id.chunk_offset]? with
      | none =>
        rw [h3] at h
        cases h
      | some is_null =>
        rw [h3] at h
        cases h

theorem collect_positions_ne_outOfRange {I T : Type} (equal : I → I → Bool) (increment : I → I)
    (dereference : I → Except IterationFailure (SegmentPosition T))
    (hd : ∀ it, dereference it ≠ .error .OutOfRange) :
    ∀ (fuel : Nat) (it end_it : I),
      collect_positions equal increment dereference fuel it end_it ≠ .error .OutOfRange := by
  intro fuel
  induction fuel with
  | zero =>
    intro it end_it h
    cases h
  | succ f ih =>
    intro it end_it h
    rw [collect_positions] at h
    split at h
    · cases h
    · split at h
      · rename_i e he
        cases h
        exact hd it he
      · split at h
        · rename_i e he
          cases h
          exact ih _ _ he
        · cases h

/-- C15: for an LZ4 segment whose decompressed value vector and null vector both have length
`n` (a size that fits a chunk offset), sequential iteration with enough fuel returns exactly
`n` triples, and the triple at index `i` holds the value at `i`, the null flag at `i` and the
chunk offset `i`. -/
theorem lz4_sequential_iteration_yields_all_positions {T : Type} (segment : LZ4Segment T)
    (n fuel : Nat) (hD : segment.decompressed.length = n) (hN : segment.null_values.length = n)
    (hn : n ≤ chunk_offset_range) (hfuel : n < fuel) :
    ∃ ps, LZ4Iterable.for_each segment fuel = .ok ps ∧ ps.length = n ∧
      (∀ i, i < n → ∃ v b, segment.decompressed[i]? = some v ∧
        segment.null_values[i]? = some b ∧ ps[i]? = some ⟨v, b, i⟩) ∧
      ps.map (fun p => p.chunk_offset) = List.range n ∧
      ps.map (fun p => p.is_null) = segment.null_values ∧
      ps.map (fun p => p.value) = segment.decompressed := by
  obtain ⟨ps, hps, hlen, hget⟩ :=
    collect_positions_sequential segment.decompressed segment.null_values n hD hN hn n 0 fuel
      (by omega) hfuel
  simp only [Nat.zero_mod, Nat.zero_add] at hps hget
  have hdef : LZ4Iterable.for_each segment fuel = .ok ps := by
    simp only [LZ4Iterable.for_each, LZ4Iterable._on_with_iterators, hD, hN]
    exact hps
  have hpoint : ∀ i, i < n → ∃ v b, segment.decompressed[i]? = some v ∧
      segment.null_values[i]? = some b ∧ ps[i]? = some ⟨v, b, i⟩ := by
    intro i hi
    have hiD : i < segment.decompressed.length := by omega
    have hiN : i < segment.null_values.length := by omega
    exact ⟨segment.decompressed[i], segment.null_values[i], List.getElem?_eq_getElem hiD,
      List.getElem?_eq_getElem hiN,
      hget i _ _ (List.getElem?_eq_getElem hiD) (List.getElem?_eq_getElem hiN)⟩
  refine ⟨ps, hdef, hlen, hpoint, ?_, ?_, ?_⟩
  · apply List.ext_getElem?
    intro i
    by_cases hi : i < n
    · obtain ⟨v, b, _, _, hp⟩ := hpoint i hi
      simp [List.getElem?_map, hp, List.getElem?_range hi]
    · have h1 : ps.length ≤ i := by omega
      simp [List.getElem?_map, List.getElem?_eq_none h1, List.getElem?_eq_none,
        Nat.le_of_not_lt hi]
  · apply List.ext_getElem?
    intro i
    by_cases hi : i < n
    · obtain ⟨v, b, _, hb, hp⟩ := hpoint i hi
      simp [List.getElem?_map, hp, hb]
    · have h1 : ps.length ≤ i := by omega
      have h2 : segment.null_values.length ≤ i := by omega
      simp [List.getElem?_map, List.getElem?_eq_none h1, List.getElem?_eq_none h2]
  · apply List.ext_getElem?
    intro i
    by_cases hi : i < n
    · obtain ⟨v, b, hv, _, hp⟩ := hpoint i hi
      simp [List.getElem?_map, hp, hv]
    · have h1 : ps.length ≤ i := by omega
      have h2 : segment.decompressed.length ≤ i := by omega
      simp [List.getElem?_map, List.getElem?_eq_none h1, List.getElem?_eq_none h2]

/-- Sequential iteration over the segment with the values 10, 20, 30 and a null at offset 1
returns the three triples `(10, false, 0)`, `(20, true, 1)`, `(30, false, 2)`. -/
theorem lz4_sequential_iteration_yields_all_positions_witness :
    (∃ ps, LZ4Iterable.for_each segment_three_values 4 = .ok ps ∧ ps.length = 3 ∧
      (∀ i, i < 3 → ∃ v b, segment_three_values.decompressed[i]? = some v ∧
        segment_three_values.null_values[i]? = some b ∧ ps[i]? = some ⟨v, b, i⟩) ∧
      ps.map (fun p => p.chunk_offset) = List.range 3 ∧
      ps.map (fun p => p.is_null) = segment_three_values.null_values ∧
      ps.map (fun p => p.value) = segment_three_values.decompressed) ∧
    LZ4Iterable.for_each segment_three_values 4 =
      .ok [⟨10, false, 0⟩, ⟨20, true, 1⟩, ⟨30, false, 2⟩] :=
  ⟨lz4_sequential_iteration_yields_all_positions segment_three_values 3 4 rfl rfl
    (by decide) (by decide), rfl⟩

/-- C16: for an LZ4 segment whose decompressed values and null vector both have length `n` and
a position list `P`, in any order, all of whose chunk offsets are below `n` (and whose length
fits a chunk offset), point access iteration with enough fuel reads nothing out of bounds
and returns exactly `|P|` triples in list order; the triple at index `k` holds the value and
the null flag at the chunk offset of `P[k]`, and the index `k`. -/
theorem lz4_point_access_yields_referenced_values {T : Type} (segment : LZ4Segment T)
    (P : List RowID) (n fuel : Nat) (hD : segment.decompressed.length = n)
    (hN : segment.null_values.length = n) (hP : ∀ q ∈ P, q.chunk_offset < n)
    (hlen : P.length ≤ chunk_offset_range) (hfuel : P.length < fuel) :
    ∃ ps, LZ4Iterable.for_each_position_filter segment P fuel = .ok ps ∧
      ps.length = P.length ∧
      ∀ (k : Nat) (q : RowID), P[k]? = some q → ∃ v b, segment.decompressed[q.chunk_offset]? = some v ∧
        segment.null_values[q.chunk_offset]? = some b ∧ ps[k]? = some ⟨v, b, k⟩ := by
  have hin : ∀ q ∈ P, q.chunk_offset < segment.decompressed.length ∧
      q.chunk_offset < segment.null_values.length := by
    intro q hq
    rw [hD, hN]
    exact ⟨hP q hq, hP q hq⟩
  obtain ⟨ps, hps, hpslen, hget⟩ :=
    collect_positions_point_access segment.decompressed segment.null_values P hlen P [] fuel
      rfl hin hfuel
  simp only [List.length_nil, Nat.zero_add] at hps hget
  have hdef : LZ4Iterable.for_each_position_filter segment P fuel = .ok ps := hps
  refine ⟨ps, hdef, hpslen, ?_⟩
  intro k q hq
  obtain ⟨hk, hkq⟩ := List.getElem?_eq_some.1 hq
  have hmem : q ∈ P := hkq ▸ List.getElem_mem hk
  obtain ⟨hqD, hqN⟩ := hin q hmem
  exact ⟨segment.decompressed[q.chunk_offset], segment.null_values[q.chunk_offset],
    List.getElem?_eq_getElem hqD, List.getElem?_eq_getElem hqN,
    hget k q _ _ hq (List.getElem?_eq_getElem hqD) (List.getElem?_eq_getElem hqN)⟩

/-- Point access with the unsorted position list `[(0, 2), (0, 0)]` over the values 10, 20, 30
returns `(30, false, 0)` and `(10, false, 1)`. -/
theorem lz4_point_access_yields_referenced_values_witness :
    (∃ ps, LZ4Iterable.for_each_position_filter segment_three_values [⟨0, 2⟩, ⟨0, 0⟩] 3 =
        .ok ps ∧
      ps.length = [(⟨0, 2⟩ : RowID), ⟨0, 0⟩].length ∧
      ∀ (k : Nat) (q : RowID), [(⟨0, 2⟩ : RowID), ⟨0, 0⟩][k]? = some q →
        ∃ v b, segment_three_values.decompressed[q.chunk_offset]? = some v ∧
          segment_three_values.null_values[q.chunk_offset]? = some b ∧
          ps[k]? = some ⟨v, b, k⟩) ∧
    LZ4Iterable.for_each_position_filter segment_three_values [⟨0, 2⟩, ⟨0, 0⟩] 3 =
      .ok [⟨30, false, 0⟩, ⟨10, false, 1⟩] :=
  ⟨lz4_point_access_yields_referenced_values segment_three_values [⟨0, 2⟩, ⟨0, 0⟩] 3 3 rfl rfl
    (by decide) (by decide) (by decide), rfl⟩

/-- C17, as stated, fails: with the in-range position list `[(0, 2), (0, 0)]` over a segment
of three values, point access returns two triples whose chunk offsets are 0 and 1, while the
chunk offsets of the entries of the position list are 2 and 0. -/
theorem lz4_point_access_chunk_offset_is_not_referenced_offset :
    (∀ q ∈ [(⟨0, 2⟩ : RowID), ⟨0, 0⟩], q.chunk_offset < segment_three_values.decompressed.length ∧
      q.chunk_offset < segment_three_values.null_values.length) ∧
    ∃ ps, LZ4Iterable.for_each_position_filter segment_three_values [⟨0, 2⟩, ⟨0, 0⟩] 3 =
        .ok ps ∧
      ps.map (fun p => p.chunk_offset) = [0, 1] ∧
      [(⟨0, 2⟩ : RowID), ⟨0, 0⟩].map (fun q => q.chunk_offset) = [2, 0] ∧
      ¬ ∀ (k : Nat) (p : SegmentPosition Int) (q : RowID), ps[k]? = some p →
        [(⟨0, 2⟩ : RowID), ⟨0, 0⟩][k]? = some q →
        p.chunk_offset = q.chunk_offset := by
  refine ⟨by decide, [⟨30, false, 0⟩, ⟨10, false, 1⟩], rfl, rfl, rfl, ?_⟩
  intro h
  have := h 0 ⟨30, false, 0⟩ ⟨0, 2⟩ rfl rfl
  simp at this

/-- C17, amended: for an LZ4 segment with value and null vectors of length `n` and a position
list `P` of positions below `n`, point access returns `|P|` triples, and the chunk offset of the
triple at index `k` is `k`, the offset of the entry in the position list; it is the chunk
offset of the entry `P[k]` only where that offset is `k`. -/
theorem lz4_point_access_chunk_offset_is_list_index {T : Type} (segment : LZ4Segment T)
    (P : List RowID) (n fuel : Nat) (hD : segment.decompressed.length = n)
    (hN : segment.null_values.length = n) (hP : ∀ q ∈ P, q.chunk_offset < n)
    (hlen : P.length ≤ chunk_offset_range) (hfuel : P.length < fuel) :
    ∃ ps, LZ4Iterable.for_each_position_filter segment P fuel = .ok ps ∧
      ps.length = P.length ∧
      (∀ (k : Nat) (p : SegmentPosition T), ps[k]? = some p → p.chunk_offset = k) ∧
      ∀ (k : Nat) (p : SegmentPosition T) (q : RowID), ps[k]? = some p → P[k]? = some q →
        (p.chunk_offset = q.chunk_offset ↔ q.chunk_offset = k) := by
  have hin : ∀ q ∈ P, q.chunk_offset < segment.decompressed.length ∧
      q.chunk_offset < segment.null_values.length := by
    intro q hq
    rw [hD, hN]
    exact ⟨hP q hq, hP q hq⟩
  obtain ⟨ps, hps, hpslen, hget⟩ :=
    collect_positions_point_access segment.decompressed segment.null_values P hlen P [] fuel
      rfl hin hfuel
  simp only [List.length_nil, Nat.zero_add] at hps hget
  have hdef : LZ4Iterable.for_each_position_filter segment P fuel = .ok ps := hps
  have hidx : ∀ (k : Nat) (p : SegmentPosition T), ps[k]? = some p → p.chunk_offset = k := by
    intro k p hp
    have hk : k < P.length := by
      have := (List.getElem?_eq_some.1 hp).1
      omega
    obtain ⟨hqD, hqN⟩ := hin P[k] (List.getElem_mem hk)
    have := hget k P[k] _ _ (List.getElem?_eq_getElem hk) (List.getElem?_eq_getElem hqD)
      (List.getElem?_eq_getElem hqN)
    rw [hp] at this
    simp only [Option.some.injEq] at this
    rw [this]
  refine ⟨ps, hdef, hpslen, hidx, ?_⟩
  intro k p q hp _
  rw [hidx k p hp]
  exact eq_comm

/-- With the position list `[(0, 2), (0, 0)]` over three values the triples carry the chunk
offsets 0 and 1. -/
theorem lz4_point_access_chunk_offset_is_list_index_witness :
    ∃ ps, LZ4Iterable.for_each_position_filter segment_three_values [⟨0, 2⟩, ⟨0, 0⟩] 3 =
        .ok ps ∧
      ps.length = [(⟨0, 2⟩ : RowID), ⟨0, 0⟩].length ∧
      (∀ (k : Nat) (p : SegmentPosition Int), ps[k]? = some p → p.chunk_offset = k) ∧
      ∀ (k : Nat) (p : SegmentPosition Int) (q : RowID), ps[k]? = some p →
        [(⟨0, 2⟩ : RowID), ⟨0, 0⟩][k]? = some q →
        (p.chunk_offset = q.chunk_offset ↔ q.chunk_offset = k) :=
  lz4_point_access_chunk_offset_is_list_index segment_three_values [⟨0, 2⟩, ⟨0, 0⟩] 3 3 rfl rfl
    (by decide) (by decide) (by decide)

/-- C18, as stated, fails: point access over a segment of three values with the position list
`[(0, 0), (0, 5)]`, whose second chunk offset is past the segment size, reads the value vector
out of bounds; no `OutOfRange` error is reported. -/
theorem lz4_point_access_out_of_range_not_reported :
    segment_three_values.decompressed.length ≤ (⟨0, 5⟩ : RowID).chunk_offset ∧
    LZ4Iterable.for_each_position_filter segment_three_values [⟨0, 0⟩, ⟨0, 5⟩] 3 =
      .error .undefined_behaviour ∧
    LZ4Iterable.for_each_position_filter segment_three_values [⟨0, 0⟩, ⟨0, 5⟩] 3 ≠
      .error .OutOfRange := by
  refine ⟨by decide, rfl, ?_⟩
  intro h
  cases h

/-- C18, amended: point access over an LZ4 segment never reports an `OutOfRange` error, and
when the position list holds a position whose chunk offset is past the end of the value vector
or of the null vector, after positions in range, the iteration reaches it and reads that
vector out of bounds, which is undefined behaviour: positions within the segment are a
precondition of point access that the iterable does not check. -/
theorem lz4_point_access_does_not_check_positions {T : Type} (segment : LZ4Segment T)
    (P : List RowID) (fuel : Nat) :
    LZ4Iterable.for_each_position_filter segment P fuel ≠ .error .OutOfRange ∧
    ∀ (pre : List RowID) (pos : RowID) (post : List RowID), P = pre ++ pos :: post →
      (∀ q ∈ pre, q.chunk_offset < segment.decompressed.length ∧
        q.chunk_offset < segment.null_values.length) →
      (segment.decompressed.length ≤ pos.chunk_offset ∨
        segment.null_values.length ≤ pos.chunk_offset) →
      pre.length < fuel →
      LZ4Iterable.for_each_position_filter segment P fuel = .error .undefined_behaviour := by
  constructor
  · exact collect_positions_ne_outOfRange _ _ _ pointAccessIterator_dereference_ne_outOfRange
      fuel _ _
  · intro pre pos post hP hin hout hfuel
    exact collect_positions_point_access_out_of_range segment.decompressed segment.null_values P
      pre [] fuel pos post (by simpa using hP) hin hout hfuel

/-- With the position list `[(0, 0), (0, 5)]` over three values the second dereference reads
out of bounds. -/
theorem lz4_point_access_does_not_check_positions_witness :
    LZ4Iterable.for_each_position_filter segment_three_values [⟨0, 0⟩, ⟨0, 5⟩] 3 ≠
      .error .OutOfRange ∧
    LZ4Iterable.for_each_position_filter segment_three_values [⟨0, 0⟩, ⟨0, 5⟩] 3 =
      .error .undefined_behaviour :=
  ⟨(lz4_point_access_does_not_check_positions segment_three_values [⟨0, 0⟩, ⟨0, 5⟩] 3).1,
    (lz4_point_access_does_not_check_positions segment_three_values [⟨0, 0⟩, ⟨0, 5⟩] 3).2
      [⟨0, 0⟩] ⟨0, 5⟩ [] rfl (by decide) (by decide) (by decide)⟩

theorem set_statistics_object_ok (self next : SegmentStatistics2)
    (statistics_object : Option AbstractStatisticsObject)
    (h : self.set_statistics_object statistics_object = (next, .ok ())) :
    ∃ histogram, statistics_object = some (.histogram histogram) ∧
      histogram.data_type = self.data_type ∧
      ((histogram.histogram_type = .EqualDistinctCount ∧
          next = { self with equal_distinct_count_histogram := some histogram }) ∨
        (histogram.histogram_type = .EqualWidth ∧
          next = { self with equal_width_histogram := some histogram }) ∨
        (histogram.histogram_type = .Generic ∧
          next = { self with generic_histogram := some histogram })) := by
  rcases statistics_object with _ | (histogram | _)
  · simp [SegmentStatistics2.set_statistics_object, dynamic_pointer_cast] at h
  · by_cases hT : histogram.data_type = self.data_type
    · refine ⟨histogram, rfl, hT, ?_⟩
      simp only [SegmentStatistics2.set_statistics_object, dynamic_pointer_cast, hT,
        if_true] at h
      cases hty : histogram.histogram_type <;> rw [hty] at h <;>
        simp only [Prod.mk.injEq, and_true, reduceCtorEq, and_false] at h <;> simp [h]
    · simp [SegmentStatistics2.set_statistics_object, dynamic_pointer_cast, hT] at h
  · simp [SegmentStatistics2.set_statistics_object, dynamic_pointer_cast] at h

theorem set_statistics_objects_slots (objects : List (Option AbstractStatisticsObject)) :
    ∀ (self result : SegmentStatistics2),
      self.set_statistics_objects objects = (result, .ok ()) →
      (result.equal_distinct_count_histogram.isSome = true ↔
        self.equal_distinct_count_histogram.isSome = true ∨
          ∃ h, some (AbstractStatisticsObject.histogram h) ∈ objects ∧
            h.histogram_type = .EqualDistinctCount) ∧
      (result.equal_width_histogram.isSome = true ↔
        self.equal_width_histogram.isSome = true ∨
          ∃ h, some (AbstractStatisticsObject.histogram h) ∈ objects ∧
            h.histogram_type = .EqualWidth) ∧
      (result.generic_histogram.isSome = true ↔
        self.generic_histogram.isSome = true ∨
          ∃ h, some (AbstractStatisticsObject.histogram h) ∈ objects ∧
            h.histogram_type = .Generic) := by
  induction objects with
  | nil =>
    intro self result h
    simp only [SegmentStatistics2.set_statistics_objects, Prod.mk.injEq, and_true] at h
    subst h
    simp
  | cons o rest ih =>
    intro self result h
    simp only [SegmentStatistics2.set_statistics_objects] at h
    split at h
    · rename_i next hnext
      obtain ⟨histogram, ho, _, hcase⟩ := set_statistics_object_ok self next o hnext
      obtain ⟨h1, h2, h3⟩ := ih next result h
      subst ho
      rcases hcase with ⟨hty, rfl⟩ | ⟨hty, rfl⟩ | ⟨hty, rfl⟩
      · refine ⟨?_, ?_, ?_⟩
        · rw [h1]
          simp only [Option.isSome_some, true_or, true_iff]
          exact Or.inr ⟨histogram, List.mem_cons_self _ _, hty⟩
        · rw [h2]
          simp only [List.mem_cons, Option.some.injEq, AbstractStatisticsObject.histogram.injEq]
          constructor
          · rintro (h | ⟨k, hk, hkt⟩)
            · exact Or.inl h
            · exact Or.inr ⟨k, Or.inr hk, hkt⟩
          · rintro (h | ⟨k, hk | hk, hkt⟩)
            · exact Or.inl h
            · subst hk
              rw [hty] at hkt
              cases hkt
            · exact Or.inr ⟨k, hk, hkt⟩
        · rw [h3]
          simp only [List.mem_cons, Option.some.injEq, AbstractStatisticsObject.histogram.injEq]
          constructor
          · rintro (h | ⟨k, hk, hkt⟩)
            · exact Or.inl h
            · exact Or.inr ⟨k, Or.inr hk, hkt⟩
          · rintro (h | ⟨k, hk | hk, hkt⟩)
            · exact Or.inl h
            · subst hk
              rw [hty] at hkt
              cases hkt
            · exact Or.inr ⟨k, hk, hkt⟩
      · refine ⟨?_, ?_, ?_⟩
        · rw [h1]
          simp only [List.mem_cons, Option.some.injEq, AbstractStatisticsObject.histogram.injEq]
          constructor
          · rintro (h | ⟨k, hk, hkt⟩)
            · exact Or.inl h
            · exact Or.inr ⟨k, Or.inr hk, hkt⟩
          · rintro (h | ⟨k, hk | hk, hkt⟩)
            · exact Or.inl h
            · subst hk
              rw [hty] at hkt
              cases hkt
            · exact Or.inr ⟨k, hk, hkt⟩
        · rw [h2]
          simp only [Option.isSome_some, true_or, true_iff]
          exact Or.inr ⟨histogram, List.mem_cons_self _ _, hty⟩
        · rw [h3]
          simp only [List.mem_cons, Option.some.injEq, AbstractStatisticsObject.histogram.injEq]
          constructor
          · rintro (h | ⟨k, hk, hkt⟩)
            · exact Or.inl h
            · exact Or.inr ⟨k, Or.inr hk, hkt⟩
          · rintro (h | ⟨k, hk | hk, hkt⟩)
            · exact Or.inl h
            · subst hk
              rw [hty] at hkt
              cases hkt
            · exact Or.inr ⟨k, hk, hkt⟩
      · refine ⟨?_, ?_, ?_⟩
        · rw [h1]
          simp only [List.mem_cons, Option.some.injEq, AbstractStatisticsObject.histogram.injEq]
          constructor
          · rintro (h | ⟨k, hk, hkt⟩)
            · exact Or.inl h
            · exact Or.inr ⟨k, Or.inr hk, hkt⟩
          · rintro (h | ⟨k, hk | hk, hkt⟩)
            · exact Or.inl h
            · subst hk
              rw [hty] at hkt
              cases hkt
            · exact Or.inr ⟨k, hk, hkt⟩
        · rw [h2]
          simp only [List.mem_cons, Option.some.injEq, AbstractStatisticsObject.histogram.injEq]
          constructor
          · rintro (h | ⟨k, hk, hkt⟩)
            · exact Or.inl h
            · exact Or.inr ⟨k, Or.inr hk, hkt⟩
          · rintro (h | ⟨k, hk | hk, hkt⟩)
            · exact Or.inl h
            · subst hk
              rw [hty] at hkt
              cases hkt
            · exact Or.inr ⟨k, hk, hkt⟩
        · rw [h3]
          simp only [Option.isSome_some, true_or, true_iff]
          exact Or.inr ⟨histogram, List.mem_cons_self _ _, hty⟩
    · cases h

/-- C19: `set_statistics_object` is aborted for every statistics object that is not a histogram
over the data type of the segment statistics, and the three slots are then as before; for a
histogram over that data type whose variant is EqualDistinctCount, EqualWidth or Generic it
returns, the slot of that variant holds the histogram, and the other two slots are as
before. -/
theorem set_statistics_object_installs_histogram (self : SegmentStatistics2)
    (statistics_object : Option AbstractStatisticsObject) :
    ((¬ ∃ h, statistics_object = some (.histogram h) ∧ h.data_type = self.data_type) →
      ∃ e, self.set_statistics_object statistics_object = (self, .error e)) ∧
    (∀ h, statistics_object = some (.histogram h) → h.data_type = self.data_type →
      (h.histogram_type = .EqualDistinctCount →
        self.set_statistics_object statistics_object =
          (⟨self.data_type, some h, self.equal_width_histogram, self.generic_histogram⟩,
            .ok ())) ∧
      (h.histogram_type = .EqualWidth →
        self.set_statistics_object statistics_object =
          (⟨self.data_type, self.equal_distinct_count_histogram, some h,
            self.generic_histogram⟩, .ok ())) ∧
      (h.histogram_type = .Generic →
        self.set_statistics_object statistics_object =
          (⟨self.data_type, self.equal_distinct_count_histogram, self.equal_width_histogram,
            some h⟩, .ok ()))) := by
  constructor
  · intro hnot
    refine ⟨.Assert, ?_⟩
    rcases statistics_object with _ | (h | _)
    · simp [SegmentStatistics2.set_statistics_object, dynamic_pointer_cast]
    · have hT : ¬ h.data_type = self.data_type := fun hT => hnot ⟨h, rfl, hT⟩
      simp [SegmentStatistics2.set_statistics_object, dynamic_pointer_cast, hT]
    · simp [SegmentStatistics2.set_statistics_object, dynamic_pointer_cast]
  · intro h hobj hT
    subst hobj
    refine ⟨?_, ?_, ?_⟩ <;> intro hty <;>
      simp [SegmentStatistics2.set_statistics_object, dynamic_pointer_cast, hT, hty]

/-- On segment statistics over `Int` that hold an equal width histogram, a histogram over
`String` and an object that is no histogram are rejected and nothing changes, and an equal
distinct count histogram over `Int` is stored in its slot next to the equal width one. -/
theorem set_statistics_object_installs_histogram_witness :
    (∃ e, SegmentStatistics2.set_statistics_object
        ⟨.Int, none, some histogram_equal_width, none⟩ (some (.histogram histogram_string)) =
      (⟨.Int, none, some histogram_equal_width, none⟩, .error e)) ∧
    (∃ e, SegmentStatistics2.set_statistics_object
        ⟨.Int, none, some histogram_equal_width, none⟩ (some .other) =
      (⟨.Int, none, some histogram_equal_width, none⟩, .error e)) ∧
    SegmentStatistics2.set_statistics_object ⟨.Int, none, some histogram_equal_width, none⟩
        (some (.histogram histogram_equal_distinct_count)) =
      (⟨.Int, some histogram_equal_distinct_count, some histogram_equal_width, none⟩, .ok ()) :=
  ⟨(set_statistics_object_installs_histogram ⟨.Int, none, some histogram_equal_width, none⟩
      (some (.histogram histogram_string))).1 (by
        rintro ⟨h, hobj, hT⟩
        cases hobj
        cases hT),
    (set_statistics_object_installs_histogram ⟨.Int, none, some histogram_equal_width, none⟩
      (some .other)).1 (by
        rintro ⟨h, hobj, _⟩
        cases hobj),
    ((set_statistics_object_installs_histogram ⟨.Int, none, some histogram_equal_width, none⟩
      (some (.histogram histogram_equal_distinct_count))).2
        histogram_equal_distinct_count rfl rfl).1 rfl⟩

/-- C20, as stated, fails: on freshly constructed segment statistics over `Int`, setting an
equal distinct count histogram and then an equal width histogram are two calls that return,
and afterwards two of the three slots are populated. -/
theorem set_statistics_object_populates_two_slots :
    (SegmentStatistics2.fresh .Int).set_statistics_object
        (some (.histogram histogram_equal_distinct_count)) =
      (⟨.Int, some histogram_equal_distinct_count, none, none⟩, .ok ()) ∧
    SegmentStatistics2.set_statistics_object ⟨.Int, some histogram_equal_distinct_count, none, none⟩
        (some (.histogram histogram_equal_width)) =
      (⟨.Int, some histogram_equal_distinct_count, some histogram_equal_width, none⟩, .ok ()) ∧
    (SegmentStatistics2.fresh .Int).set_statistics_objects
        [some (.histogram histogram_equal_distinct_count),
          some (.histogram histogram_equal_width)] =
      (⟨.Int, some histogram_equal_distinct_count, some histogram_equal_width, none⟩, .ok ()) ∧
    SegmentStatistics2.populated_slots
        ⟨.Int, some histogram_equal_distinct_count, some histogram_equal_width, none⟩ = 2 ∧
    ¬ SegmentStatistics2.populated_slots
        ⟨.Int, some histogram_equal_distinct_count, some histogram_equal_width, none⟩ ≤ 1 := by
  refine ⟨rfl, rfl, rfl, rfl, by decide⟩

/-- C20, amended: starting from freshly constructed segment statistics, after every sequence
of calls of `set_statistics_object` that all return, a histogram slot is populated exactly when
a histogram of its variant was among the objects set; a single call that returns populates
exactly one slot, and when the objects set are histograms of at most one variant, at most one
slot is populated. -/
theorem set_statistics_object_populates_slots_of_variants_set (T : DataType)
    (objects : List (Option AbstractStatisticsObject)) (result : SegmentStatistics2)
    (h : (SegmentStatistics2.fresh T).set_statistics_objects objects = (result, .ok ())) :
    (result.equal_distinct_count_histogram.isSome = true ↔
      ∃ h, some (AbstractStatisticsObject.histogram h) ∈ objects ∧
        h.histogram_type = .EqualDistinctCount) ∧
    (result.equal_width_histogram.isSome = true ↔
      ∃ h, some (AbstractStatisticsObject.histogram h) ∈ objects ∧
        h.histogram_type = .EqualWidth) ∧
    (result.generic_histogram.isSome = true ↔
      ∃ h, some (AbstractStatisticsObject.histogram h) ∈ objects ∧
        h.histogram_type = .Generic) ∧
    (objects.length = 1 → result.populated_slots = 1) ∧
    ((∃ variant, ∀ h, some (AbstractStatisticsObject.histogram h) ∈ objects →
        h.histogram_type = variant) → result.populated_slots ≤ 1) := by
  obtain ⟨h1, h2, h3⟩ := set_statistics_objects_slots objects (SegmentStatistics2.fresh T) result h
  simp only [SegmentStatistics2.fresh, Option.isSome_none, Bool.false_eq_true, false_or] at h1 h2 h3
  refine ⟨h1, h2, h3, ?_, ?_⟩
  · intro hlen
    obtain ⟨o, rfl⟩ := List.length_eq_one.1 hlen
    simp only [SegmentStatistics2.set_statistics_objects] at h
    split at h
    · rename_i next hnext
      simp only [Prod.mk.injEq, and_true] at h
      subst h
      obtain ⟨histogram, _, _, hcase⟩ := set_statistics_object_ok _ _ _ hnext
      rcases hcase with ⟨_, rfl⟩ | ⟨_, rfl⟩ | ⟨_, rfl⟩ <;>
        simp [SegmentStatistics2.populated_slots, SegmentStatistics2.fresh]
    · cases h
  · rintro ⟨variant, hvariant⟩
    have hone : ∀ v, (∃ h, some (AbstractStatisticsObject.histogram h) ∈ objects ∧
        h.histogram_type = v) → v = variant := by
      rintro v ⟨k, hk, hkv⟩
      rw [← hkv]
      exact hvariant k hk
    simp only [SegmentStatistics2.populated_slots]
    by_cases c1 : result.equal_distinct_count_histogram.isSome = true <;>
    by_cases c2 : result.equal_width_histogram.isSome = true <;>
    by_cases c3 : result.generic_histogram.isSome = true <;>
    simp only [c1, c2, c3, if_true, if_false, Bool.false_eq_true] <;>
    first
    | omega
    | (exfalso
       have e1 := fun c => hone _ (h1.1 c)
       have e2 := fun c => hone _ (h2.1 c)
       have e3 := fun c => hone _ (h3.1 c)
       first
       | (have a := e1 c1; have b := e2 c2; rw [← a] at b; cases b)
       | (have a := e1 c1; have b := e3 c3; rw [← a] at b; cases b)
       | (have a := e2 c2; have b := e3 c3; rw [← a] at b; cases b))

/-- After an equal distinct count and an equal width histogram are set on fresh segment
statistics, exactly the slots of these two variants are populated. -/
theorem set_statistics_object_populates_slots_of_variants_set_witness :
    ((SegmentStatistics2.mk .Int (some histogram_equal_distinct_count)
        (some histogram_equal_width) none).equal_distinct_count_histogram.isSome = true ↔
      ∃ h, some (AbstractStatisticsObject.histogram h) ∈
          [some (AbstractStatisticsObject.histogram histogram_equal_distinct_count),
            some (.histogram histogram_equal_width)] ∧
        h.histogram_type = .EqualDistinctCount) ∧
    ((SegmentStatistics2.mk .Int (some histogram_equal_distinct_count)
        (some histogram_equal_width) none).generic_histogram.isSome = true ↔
      ∃ h, some (AbstractStatisticsObject.histogram h) ∈
          [some (AbstractStatisticsObject.histogram histogram_equal_distinct_count),
            some (.histogram histogram_equal_width)] ∧
        h.histogram_type = .Generic) :=
  ⟨(set_statistics_object_populates_slots_of_variants_set .Int
      [some (.histogram histogram_equal_distinct_count), some (.histogram histogram_equal_width)]
      ⟨.Int, some histogram_equal_distinct_count, some histogram_equal_width, none⟩ rfl).1,
    (set_statistics_object_populates_slots_of_variants_set .Int
      [some (.histogram histogram_equal_distinct_count), some (.histogram histogram_equal_width)]
      ⟨.Int, some histogram_equal_distinct_count, some histogram_equal_width, none⟩ rfl).2.2.1⟩

/-- C26: `flip_predicate_condition` returns a condition for `op` exactly when
`is_lexicographical_predicate_condition(op)` is true; it fails on exactly Between, In, Like,
NotLike, IsNull and IsNotNull, of which Like and NotLike are binary conditions; and a condition
it returns is lexicographical again. -/
theorem flip_predicate_condition_succeeds_iff_lexicographical (op : PredicateCondition) :
    ((∃ r, flip_predicate_condition op = .ok r) ↔
      is_lexicographical_predicate_condition op = true) ∧
    (flip_predicate_condition op = .error .Fail ↔
      op ∈ [PredicateCondition.Between, .In, .Like, .NotLike, .IsNull, .IsNotNull]) ∧
    (∀ r, flip_predicate_condition op = .ok r →
      is_lexicographical_predicate_condition r = true) ∧
    is_binary_predicate_condition .Like = true ∧
    is_binary_predicate_condition .NotLike = true ∧
    flip_predicate_condition .Like = .error .Fail ∧
    flip_predicate_condition .NotLike = .error .Fail := by
  refine ⟨?_, ?_, ?_, rfl, rfl, rfl, rfl⟩
  · cases op <;> simp [flip_predicate_condition, is_lexicographical_predicate_condition]
  · cases op <;> simp [flip_predicate_condition]
  · intro r hr
    cases op <;> cases hr <;> rfl

/-- The condition `GreaterThan` is lexicographical and is flipped to `LessThan`, which is
lexicographical. -/
theorem flip_predicate_condition_succeeds_iff_lexicographical_witness :
    (∃ r, flip_predicate_condition .GreaterThan = .ok r) ∧
    is_lexicographical_predicate_condition .LessThan = true :=
  ⟨(flip_predicate_condition_succeeds_iff_lexicographical .GreaterThan).1.2 rfl,
    (flip_predicate_condition_succeeds_iff_lexicographical .GreaterThan).2.2.1 .LessThan rfl⟩

/-- C27: `inverse_predicate_condition` returns a condition for `op` exactly when
`is_unary_predicate_condition(op)` or `is_binary_predicate_condition(op)` is true; it fails on
exactly Between and In; a condition it returns is unary exactly when `op` is, lexicographical
exactly when `op` is, is NotLike for Like and Like for NotLike, and is never `op` itself. -/
theorem inverse_predicate_condition_succeeds_iff_unary_or_binary (op : PredicateCondition) :
    ((∃ r, inverse_predicate_condition op = .ok r) ↔
      (is_unary_predicate_condition op = true ∨ is_binary_predicate_condition op = true)) ∧
    (inverse_predicate_condition op = .error .Fail ↔ (op = .Between ∨ op = .In)) ∧
    (∀ r, inverse_predicate_condition op = .ok r →
      is_unary_predicate_condition r = is_unary_predicate_condition op ∧
      is_lexicographical_predicate_condition r = is_lexicographical_predicate_condition op ∧
      (op = .Like → r = .NotLike) ∧ (op = .NotLike → r = .Like) ∧ r ≠ op) := by
  refine ⟨?_, ?_, ?_⟩
  · cases op <;>
      simp [inverse_predicate_condition, is_unary_predicate_condition,
        is_binary_predicate_condition]
  · cases op <;> simp [inverse_predicate_condition]
  · intro r hr
    cases op <;> cases hr <;> decide

/-- The inverse of the unary `IsNull` is the unary `IsNotNull`, and the inverse of `Like` is
`NotLike`. -/
theorem inverse_predicate_condition_succeeds_iff_unary_or_binary_witness :
    (∃ r, inverse_predicate_condition .IsNull = .ok r) ∧
    is_unary_predicate_condition .IsNotNull = is_unary_predicate_condition .IsNull ∧
    PredicateCondition.NotLike ≠ .Like :=
  ⟨(inverse_predicate_condition_succeeds_iff_unary_or_binary .IsNull).1.2 (Or.inl rfl),
    ((inverse_predicate_condition_succeeds_iff_unary_or_binary .IsNull).2.2 .IsNotNull rfl).1,
    ((inverse_predicate_condition_succeeds_iff_unary_or_binary .Like).2.2 .NotLike rfl).2.2.2.2⟩

/-- C28: for each lexicographical condition `op`, inverting and then flipping, and flipping and
then inverting, both return a condition, and it is the same condition. -/
theorem flip_inverse_predicate_condition_commute (op : PredicateCondition)
    (hop : is_lexicographical_predicate_condition op = true) :
    ∃ inverted flipped r, inverse_predicate_condition op = .ok inverted ∧
      flip_predicate_condition inverted = .ok r ∧
      flip_predicate_condition op = .ok flipped ∧
      inverse_predicate_condition flipped = .ok r := by
  cases op <;> simp [is_lexicographical_predicate_condition] at hop <;>
    exact ⟨_, _, _, rfl, rfl, rfl, rfl⟩

/-- For `LessThan` both orders end in `LessThanEquals`. -/
theorem flip_inverse_predicate_condition_commute_witness :
    (∃ inverted flipped r, inverse_predicate_condition .LessThan = .ok inverted ∧
      flip_predicate_condition inverted = .ok r ∧
      flip_predicate_condition .LessThan = .ok flipped ∧
      inverse_predicate_condition flipped = .ok r) ∧
    flip_predicate_condition .GreaterThanEquals = .ok .LessThanEquals ∧
    inverse_predicate_condition .GreaterThan = .ok .LessThanEquals :=
  ⟨flip_inverse_predicate_condition_commute .LessThan rfl, rfl, rfl⟩

/-- C30: of `is_unary_predicate_condition`, `is_binary_predicate_condition` and
`is_ternary_predicate_condition` no two are true of one condition, exactly one is true of
every condition other than In, none is true of In, and a lexicographical condition is
binary. -/
theorem predicate_condition_arity_classes (op : PredicateCondition) :
    ¬ (is_unary_predicate_condition op = true ∧ is_binary_predicate_condition op = true) ∧
    ¬ (is_unary_predicate_condition op = true ∧ is_ternary_predicate_condition op = true) ∧
    ¬ (is_binary_predicate_condition op = true ∧ is_ternary_predicate_condition op = true) ∧
    (is_unary_predicate_condition op).toNat + (is_binary_predicate_condition op).toNat +
        (is_ternary_predicate_condition op).toNat = (if op = .In then 0 else 1) ∧
    (is_lexicographical_predicate_condition op = true →
      is_binary_predicate_condition op = true) := by
  cases op <;> decide

/-- The condition `Between` is ternary and neither unary nor binary; `LessThan` is
lexicographical, hence binary. -/
theorem predicate_condition_arity_classes_witness :
    (is_unary_predicate_condition .Between).toNat + (is_binary_predicate_condition .Between).toNat +
        (is_ternary_predicate_condition .Between).toNat = 1 ∧
    is_binary_predicate_condition .LessThan = true :=
  ⟨by
    have h := (predicate_condition_arity_classes .Between).2.2.2.1
    simpa using h,
    (predicate_condition_arity_classes .LessThan).2.2.2.2 rfl⟩

/-- C29: for an LZ4 segment whose value and null vectors both have length `n` (a size that fits
a chunk offset), point access iteration with the identity position list
`[(c, 0), ..., (c, n - 1)]` returns the same list of triples as sequential iteration, and both
return `n` triples. -/
theorem lz4_point_access_identity_equals_sequential {T : Type} (segment : LZ4Segment T)
    (c : ChunkID) (n fuel : Nat) (hD : segment.decompressed.length = n)
    (hN : segment.null_values.length = n) (hn : n ≤ chunk_offset_range) (hfuel : n < fuel) :
    LZ4Iterable.for_each_position_filter segment (identity_position_list c n) fuel =
      LZ4Iterable.for_each segment fuel ∧
    ∃ ps, LZ4Iterable.for_each segment fuel = .ok ps ∧ ps.length = n := by
  have hPlen : (identity_position_list c n).length = n := by simp [identity_position_list]
  have hPget : ∀ j, j < n → (identity_position_list c n)[j]? = some ⟨c, j⟩ := by
    intro j hj
    simp [identity_position_list, List.getElem?_map, List.getElem?_range hj]
  obtain ⟨ps, hps, hlen, hget⟩ :=
    collect_positions_sequential segment.decompressed segment.null_values n hD hN hn n 0 fuel
      (by omega) hfuel
  simp only [Nat.zero_mod, Nat.zero_add] at hps hget
  have hseq : LZ4Iterable.for_each segment fuel = .ok ps := by
    simp only [LZ4Iterable.for_each, LZ4Iterable._on_with_iterators, hD, hN]
    exact hps
  have hin : ∀ q ∈ identity_position_list c n,
      q.chunk_offset < segment.decompressed.length ∧
        q.chunk_offset < segment.null_values.length := by
    intro q hq
    simp only [identity_position_list, List.mem_map, List.mem_range] at hq
    obtain ⟨i, hi, rfl⟩ := hq
    rw [hD, hN]
    exact ⟨hi, hi⟩
  obtain ⟨qs, hqs, hqlen, hqget⟩ :=
    collect_positions_point_access segment.decompressed segment.null_values
      (identity_position_list c n) (by rw [hPlen]; exact hn) (identity_position_list c n) []
      fuel rfl hin (by rw [hPlen]; exact hfuel)
  simp only [List.length_nil, Nat.zero_add] at hqs hqget
  have hpoint : LZ4Iterable.for_each_position_filter segment (identity_position_list c n) fuel =
      .ok qs := hqs
  have heq : qs = ps := by
    apply List.ext_getElem?
    intro j
    by_cases hj : j < n
    · have hjD : j < segment.decompressed.length := by omega
      have hjN : j < segment.null_values.length := by omega
      rw [hget j _ _ (List.getElem?_eq_getElem hjD) (List.getElem?_eq_getElem hjN),
        hqget j ⟨c, j⟩ _ _ (hPget j hj) (List.getElem?_eq_getElem hjD)
          (List.getElem?_eq_getElem hjN)]
    · rw [List.getElem?_eq_none (by omega), List.getElem?_eq_none (by omega)]
  rw [hpoint, hseq, heq]
  exact ⟨rfl, ps, rfl, hlen⟩

/-- On the segment with the values 10, 20, 30 and a null at offset 1, point access with the
position list `[(7, 0), (7, 1), (7, 2)]` and sequential iteration both return
`(10, false, 0)`, `(20, true, 1)`, `(30, false, 2)`. -/
theorem lz4_point_access_identity_equals_sequential_witness :
    (LZ4Iterable.for_each_position_filter segment_three_values (identity_position_list 7 3) 4 =
        LZ4Iterable.for_each segment_three_values 4 ∧
      ∃ ps, LZ4Iterable.for_each segment_three_values 4 = .ok ps ∧ ps.length = 3) ∧
    LZ4Iterable.for_each_position_filter segment_three_values (identity_position_list 7 3) 4 =
      .ok [⟨10, false, 0⟩, ⟨20, true, 1⟩, ⟨30, false, 2⟩] :=
  ⟨lz4_point_access_identity_equals_sequential segment_three_values 7 3 4 rfl rfl (by decide)
    (by decide), rfl⟩

/-- C22: for every arithmetic expression, whatever its operator and operands,
`as_column_name` ends in the `Fail` of line 34 and returns no string. -/
theorem as_column_name_always_fails (expression : ArithmeticExpression) :
    expression.as_column_name = .error .Fail ∧
    ∀ name : String, expression.as_column_name ≠ .ok name := by
  refine ⟨rfl, ?_⟩
  intro name h
  cases h

/-- C24 fails on the code: for the row counts `2 ^ 32` and `2 ^ 32`, as for `2 ^ 63` and 2,
which are values of `uint64_t`, `total_input_row_count` wraps to zero, so the division of
line 90 divides by zero; with an empty side, the case the code provides for, it is not
zero. -/
theorem total_input_row_count_wraps_to_zero :
    4294967296 < uint64_range ∧
    total_input_row_count 4294967296 4294967296 = 0 ∧
    total_input_row_count 9223372036854775808 2 = 0 ∧
    total_input_row_count 0 0 = 1 ∧
    total_input_row_count 0 7 = 7 ∧
    total_input_row_count 4294967295 4294967296 ≠ 0 := by
  decide

theorem total_input_row_count_pos_of_no_wrap (left_input_row_count right_input_row_count : Nat)
    (h : max 1 (left_input_row_count % uint64_range) *
      max 1 (right_input_row_count % uint64_range) < uint64_range) :
    0 < total_input_row_count left_input_row_count right_input_row_count := by
  unfold total_input_row_count
  rw [Nat.mod_eq_of_lt h]
  exact Nat.mul_pos (lt_of_lt_of_le Nat.one_pos (le_max_left _ _))
    (lt_of_lt_of_le Nat.one_pos (le_max_left _ _))

theorem union_exclusions_congr (planA planB : LQP)
    (statistics : List (Option ChunkStatistics2)) (predsA predsB : List NodeId)
    (h : SamePredicates planA planB predsA predsB) (acc : List ChunkID) :
    union_exclusions planA statistics predsA acc =
      union_exclusions planB statistics predsB acc := by
  unfold SamePredicates at h
  induction h generalizing acc with
  | nil => rfl
  | cons hab _ ih =>
    obtain ⟨na, nb, ha, hb, hpred⟩ := hab
    simp only [union_exclusions, deref_eq_ok.2 ha, deref_eq_ok.2 hb,
      _compute_exclude_list_congr statistics hpred]
    cases _compute_exclude_list statistics na with
    | error e => rfl
    | ok E => exact ih _

theorem PredicateChain.nodes {plan : LQP} {p e : NodeId} {preds : List NodeId}
    (h : PredicateChain plan p preds e) :
    ∀ id ∈ preds, ∃ n, plan[id]? = some n ∧ n.type = .Predicate := by
  induction h with
  | last hp hn =>
    intro id hid
    simp only [List.mem_singleton] at hid
    subst hid
    exact ⟨_, hp, hn⟩
  | cons hp hn _ _ _ _ _ ih =>
    intro id hid
    rcases List.mem_cons.1 hid with rfl | hid
    · exact ⟨_, hp, hn⟩
    · exact ih id hid

theorem predicateChain_of_sameStructure {plan plan' : LQP} {p e : NodeId}
    {preds : List NodeId} (h : PredicateChain plan p preds e) (hs : SameStructure plan plan') :
    PredicateChain plan' p preds e := by
  induction h with
  | last hp hn hl he hne =>
    obtain ⟨n', hn', hf⟩ := hs.get _ _ hp
    obtain ⟨m', hm', hg⟩ := hs.get _ _ he
    obtain ⟨t1, l1, _⟩ := forget_exclusions_fields hf
    obtain ⟨t2, _⟩ := forget_exclusions_fields hg
    exact PredicateChain.last hn' (t1.trans hn) (l1.trans hl) hm' (by rw [t2]; exact hne)
  | cons hp hn hl hq hm hout _ ih =>
    obtain ⟨n', hn', hf⟩ := hs.get _ _ hp
    obtain ⟨m', hm', hg⟩ := hs.get _ _ hq
    obtain ⟨t1, l1, _⟩ := forget_exclusions_fields hf
    obtain ⟨t2, _, _, o2, _⟩ := forget_exclusions_fields hg
    exact PredicateChain.cons hn' (t1.trans hn) (l1.trans hl) hm' (t2.trans hm)
      (by simp only [LQPNode.output_count, o2]; exact hout) ih

theorem samePredicates_of_sameStructure {plan plan' : LQP} {p e : NodeId}
    {preds : List NodeId} (h : PredicateChain plan p preds e) (hs : SameStructure plan plan') :
    SamePredicates plan' plan preds preds := by
  unfold SamePredicates
  rw [List.forall₂_same]
  intro id hid
  obtain ⟨n, hn, _⟩ := h.nodes id hid
  obtain ⟨n', hn', hf⟩ := hs.get _ _ hn
  exact ⟨n', n, hn', hn, (forget_exclusions_fields hf).2.2.2.2.1.symm⟩

theorem set_intersection_loop_self (turns : Nat) (xs : List ChunkID) (h : xs.length ≤ turns) :
    set_intersection_loop turns xs xs = xs := by
  induction xs generalizing turns with
  | nil => cases turns <;> rfl
  | cons x xs ih =>
    obtain ⟨t, rfl⟩ : ∃ t, turns = t + 1 := ⟨turns - 1, by simp at h; omega⟩
    simp only [set_intersection_loop, lt_self_iff_false, if_false]
    rw [ih t (by simp at h; omega)]

theorem merge_exclusions_self (xs : List ChunkID) : merge_exclusions xs xs = xs := by
  unfold merge_exclusions set_intersection
  split
  · exact set_intersection_loop_self _ xs (by omega)
  · rfl

theorem set_excluded_chunk_ids_twice (plan : LQP) (id : NodeId) (l l' : List ChunkID) :
    (plan.set_excluded_chunk_ids id l).set_excluded_chunk_ids id l' =
      plan.set_excluded_chunk_ids id l' := by
  cases h : plan[id]? with
  | none => simp [LQP.set_excluded_chunk_ids, h]
  | some n =>
    have h' := set_excluded_chunk_ids_get plan id n l h
    have hl : (plan.set_excluded_chunk_ids id l) = plan.set id { n with excluded_chunk_ids := l } := by
      simp [LQP.set_excluded_chunk_ids, h]
    rw [LQP.set_excluded_chunk_ids, h', hl]
    simp [LQP.set_excluded_chunk_ids, h, List.set_set]

theorem prune_stored_table_cases (sm : StorageManager) (plan : LQP) (preds : List NodeId)
    (st : NodeId) (stored : LQPNode) :
    (∃ e, prune_stored_table sm plan preds st stored = ⟨plan, .error e⟩) ∨
    ∃ table statistics U, sm.get_table stored.table_name = .ok table ∧
      table_statistics_vector table = .ok statistics ∧
      union_exclusions plan statistics preds [] = .ok U ∧
      prune_stored_table sm plan preds st stored =
        ⟨plan.set_excluded_chunk_ids st (merge_exclusions stored.excluded_chunk_ids U),
          .ok false⟩ := by
  cases h1 : sm.get_table stored.table_name with
  | error e => exact Or.inl ⟨e, by simp [prune_stored_table, h1]⟩
  | ok table =>
    cases h2 : table_statistics_vector table with
    | error e => exact Or.inl ⟨e, by simp [prune_stored_table, h1, h2]⟩
    | ok statistics =>
      cases h3 : union_exclusions plan statistics preds [] with
      | error e => exact Or.inl ⟨e, by simp [prune_stored_table, h1, h2, h3]⟩
      | ok U =>
        exact Or.inr ⟨table, statistics, U, rfl, h2, h3, by simp [prune_stored_table, h1, h2, h3]⟩

theorem apply_to_two_validates (sm : StorageManager) {plan : LQP} {p e e2 : NodeId}
    {preds : List NodeId} {v1 v2 : LQPNode} (h : PredicateChain plan p preds e)
    (he : plan[e]? = some v1) (hv1 : v1.type = .Validate) (hl : v1.left_input = some e2)
    (he2 : plan[e2]? = some v2) (hv2 : v2.type ≠ .StoredTable) (fuel : Nat)
    (hfuel : preds.length ≤ fuel) :
    apply_to sm (fuel + 1) plan p = _apply_to_inputs (apply_to sm fuel) plan p := by
  obtain ⟨n, hp, hn⟩ := h.head_node
  have hg := gather_predicate_nodes_chain h (fuel + 1) (by omega) []
  simp only [List.nil_append] at hg
  have hskip : skip_validate plan e = .ok e2 := by
    simp [skip_validate, LQP.deref, he, hv1, hl]
  simp only [apply_to, LQP.deref, hp, hn, hg, hskip, he2]
  simp [hv2]

theorem chain_validate : PredicateChain plan_validate 2 [2] 1 :=
  .last (n := predicate_node 1 [] (column_vs_literal 0 .GreaterThan 25))
    (m := ⟨.Validate, some 0, none, [2], no_expression, "", []⟩) rfl rfl rfl rfl (by decide)

theorem chain_two_validates : PredicateChain plan_two_validates 3 [3] 2 :=
  .last (n := predicate_node 2 [] (column_vs_literal 0 .GreaterThan 25))
    (m := ⟨.Validate, some 1, none, [3], no_expression, "", []⟩) rfl rfl rfl rfl (by decide)

/-- C23: a predicate chain that ends, past one validate node, in a stored-table node gives the
same result and leaves the same excluded list in the stored-table node as a chain with the same
predicates that ends in a stored-table node directly, the table name and the list before being
the same; and when the node behind the validate node is a validate node again, `apply_to` on
the head of the chain writes nothing itself and returns what `_apply_to_inputs` returns for
that node. -/
theorem apply_to_skips_one_validate (sm : StorageManager) :
    (∀ (planA planB : LQP) (pA eA stA pB stB : NodeId) (predsA predsB : List NodeId)
        (validate storedA storedB : LQPNode) (fuel : Nat),
      PredicateChain planA pA predsA eA → planA[eA]? = some validate →
      validate.type = .Validate → validate.left_input = some stA →
      planA[stA]? = some storedA → storedA.type = .StoredTable →
      PredicateChain planB pB predsB stB → planB[stB]? = some storedB →
      storedB.type = .StoredTable → SamePredicates planA planB predsA predsB →
      storedA.table_name = storedB.table_name →
      storedA.excluded_chunk_ids = storedB.excluded_chunk_ids → predsA.length ≤ fuel →
      (apply_to sm (fuel + 1) planA pA).result = (apply_to sm (fuel + 1) planB pB).result ∧
      ∃ L, ((apply_to sm (fuel + 1) planA pA).plan[stA]?).map (·.excluded_chunk_ids) = some L ∧
        ((apply_to sm (fuel + 1) planB pB).plan[stB]?).map (·.excluded_chunk_ids) = some L) ∧
    (∀ (plan : LQP) (p e e2 : NodeId) (preds : List NodeId) (v1 v2 : LQPNode) (fuel : Nat),
      PredicateChain plan p preds e → plan[e]? = some v1 → v1.type = .Validate →
      v1.left_input = some e2 → plan[e2]? = some v2 → v2.type = .Validate →
      preds.length ≤ fuel →
      apply_to sm (fuel + 1) plan p = _apply_to_inputs (apply_to sm fuel) plan p) := by
  constructor
  · intro planA planB pA eA stA pB stB predsA predsB validate storedA storedB fuel hchainA heA
      hval hleft hstA htyA hchainB hstB htyB hsame hname hexcl hfuel
    have hlen : predsB.length = predsA.length := by
      unfold SamePredicates at hsame
      exact hsame.length_eq.symm
    rw [apply_to_chain sm hchainA ⟨hstA, htyA, Or.inr ⟨validate, heA, hval, hleft⟩⟩ fuel hfuel,
      apply_to_chain sm hchainB ⟨hstB, htyB, Or.inl rfl⟩ fuel (by omega)]
    simp only [prune_stored_table, hname]
    cases h1 : sm.get_table storedB.table_name with
    | error err => exact ⟨rfl, storedB.excluded_chunk_ids, by simp [hstA, hexcl], by simp [hstB]⟩
    | ok table =>
      simp only
      cases h2 : table_statistics_vector table with
      | error err =>
        exact ⟨rfl, storedB.excluded_chunk_ids, by simp [hstA, hexcl], by simp [hstB]⟩
      | ok statistics =>
        simp only
        rw [union_exclusions_congr planA planB statistics predsA predsB hsame]
        cases h3 : union_exclusions planB statistics predsB [] with
        | error err =>
          exact ⟨rfl, storedB.excluded_chunk_ids, by simp [hstA, hexcl], by simp [hstB]⟩
        | ok U =>
          refine ⟨rfl, merge_exclusions storedB.excluded_chunk_ids U, ?_, ?_⟩
          · simp [set_excluded_chunk_ids_get planA stA storedA _ hstA, hexcl]
          · simp [set_excluded_chunk_ids_get planB stB storedB _ hstB]
  · intro plan p e e2 preds v1 v2 fuel hchain he hv1 hl he2 hv2 hfuel
    exact apply_to_two_validates sm hchain he hv1 hl he2 (by rw [hv2]; decide) fuel hfuel

/-- On the table of S4, `col_a > 25 -> Validate -> StoredTable` and `col_a > 25 -> StoredTable`
both store the chunks 0 and 1; with two validate nodes the rule recurses on the inputs and the
excluded list stays empty. -/
theorem apply_to_skips_one_validate_witness :
    ((apply_to storage_S4 2 plan_validate 2).result =
        (apply_to storage_S4 2 plan_one_predicate 1).result ∧
      ∃ L, ((apply_to storage_S4 2 plan_validate 2).plan[0]?).map (·.excluded_chunk_ids) =
          some L ∧
        ((apply_to storage_S4 2 plan_one_predicate 1).plan[0]?).map (·.excluded_chunk_ids) =
          some L) ∧
    ((apply_to storage_S4 2 plan_validate 2).plan[0]?).map (·.excluded_chunk_ids) =
      some [0, 1] ∧
    apply_to storage_S4 5 plan_two_validates 3 =
      _apply_to_inputs (apply_to storage_S4 4) plan_two_validates 3 ∧
    ((apply_to storage_S4 5 plan_two_validates 3).plan[0]?).map (·.excluded_chunk_ids) =
      some [] ∧
    (apply_to storage_S4 5 plan_two_validates 3).result = .ok false :=
  ⟨(apply_to_skips_one_validate storage_S4).1 plan_validate plan_one_predicate 2 1 0 1 0 [2] [1]
      ⟨.Validate, some 0, none, [2], no_expression, "", []⟩ (stored_table_node [1] [])
      (stored_table_node [1] []) 1 chain_validate rfl rfl rfl rfl rfl
      (chain_one_predicate plan_one_predicate [] rfl) rfl rfl
      (List.Forall₂.cons ⟨_, _, rfl, rfl, rfl⟩ List.Forall₂.nil) rfl rfl (by decide),
    rfl,
    (apply_to_skips_one_validate storage_S4).2 plan_two_validates 3 2 1 [3]
      ⟨.Validate, some 1, none, [3], no_expression, "", []⟩
      ⟨.Validate, some 0, none, [2], no_expression, "", []⟩ 4 chain_two_validates rfl rfl rfl
      rfl rfl (by decide),
    rfl, rfl⟩

/-- C25: for a predicate chain that ends, possibly past one validate node, in a stored-table
node whose excluded list is empty, applying `apply_to` to the plan that a first application
leaves gives the outcome of the first application again: the same plan, hence the same
excluded list, and the same result. -/
theorem apply_to_idempotent_from_empty_list (sm : StorageManager) (plan : LQP)
    (p e st : NodeId) (preds : List NodeId) (stored : LQPNode) (fuel : Nat)
    (hchain : PredicateChain plan p preds e) (hend : ChainEnd plan e st stored)
    (hfuel : preds.length ≤ fuel) (hempty : stored.excluded_chunk_ids = []) :
    apply_to sm (fuel + 1) (apply_to sm (fuel + 1) plan p).plan p =
      apply_to sm (fuel + 1) plan p := by
  have h1 := apply_to_chain sm hchain hend fuel hfuel
  rcases prune_stored_table_cases sm plan preds st stored with
    ⟨err, hp⟩ | ⟨table, statistics, U, ht, hs, hu, hp⟩
  · rw [h1, hp]
    simp only
    rw [h1, hp]
  · rw [h1, hp]
    simp only
    obtain ⟨hst, hty, hcase⟩ := hend
    have hmerge : merge_exclusions stored.excluded_chunk_ids U = U := by
      simp [merge_exclusions, hempty]
    rw [hmerge]
    have hsame : SameStructure plan (plan.set_excluded_chunk_ids st U) :=
      set_excluded_chunk_ids_sameStructure plan st stored U hst hty
    have hchain' := predicateChain_of_sameStructure hchain hsame
    have hst' := set_excluded_chunk_ids_get plan st stored U hst
    have hend' : ChainEnd (plan.set_excluded_chunk_ids st U) e st
        { stored with excluded_chunk_ids := U } := by
      refine ⟨hst', hty, ?_⟩
      rcases hcase with rfl | ⟨ne, hne, hnety, hnel⟩
      · exact Or.inl rfl
      · refine Or.inr ⟨ne, ?_, hnety, hnel⟩
        have hne_st : st ≠ e := by
          rintro rfl
          rw [hst] at hne
          cases hne
          rw [hty] at hnety
          cases hnety
        rw [set_excluded_chunk_ids_get_ne plan st e U hne_st]
        exact hne
    rw [apply_to_chain sm hchain' hend' fuel hfuel]
    have hu' : union_exclusions (plan.set_excluded_chunk_ids st U) statistics preds [] =
        .ok U := by
      rw [union_exclusions_congr _ plan statistics preds preds
        (samePredicates_of_sameStructure hchain hsame)]
      exact hu
    simp only [prune_stored_table, ht, hs, hu', merge_exclusions_self,
      set_excluded_chunk_ids_twice]

/-- On the table of S4 and the chain `col_a < 5 -> col_a > 25 -> StoredTable`, a second
application of the rule leaves the chunks 0, 1 and 2 that the first one stored. -/
theorem apply_to_idempotent_from_empty_list_witness :
    apply_to storage_S4 3 (apply_to storage_S4 3 plan_two_predicates 2).plan 2 =
      apply_to storage_S4 3 plan_two_predicates 2 ∧
    ((apply_to storage_S4 3 plan_two_predicates 2).plan[0]?).map (·.excluded_chunk_ids) =
      some [0, 1, 2] ∧
    ((apply_to storage_S4 3 (apply_to storage_S4 3 plan_two_predicates 2).plan 2).plan[0]?).map
      (·.excluded_chunk_ids) = some [0, 1, 2] :=
  ⟨apply_to_idempotent_from_empty_list storage_S4 plan_two_predicates 2 0 0 [2, 1]
    (stored_table_node [1] []) 2 chain_two_predicates ⟨rfl, rfl, Or.inl rfl⟩ (by decide) rfl,
    rfl, rfl⟩

end Hyrise
